import Mathlib

/-!
# Verification of the GasRun weekly-leaderboard aggregation engine

This file gives a shallow embedding, in Lean 4, of the core of the
leaderboard engine of the GasRun repository, and proves (or refutes)
the frozen claims about it.

The repository contains three revisions of the engine:

* `src/api/leaderboard.js` — schema version 4, a single shared progress
  cursor (`lastProcessedBlock`); any calendar-week change triggers a cold
  backfill.  Embedded below in namespace `LB`.
* `src/unnamed/part_001` — an earlier revision without schema versioning;
  it implements the rollover snapshot when the calendar week advances by
  exactly one.  Embedded in namespace `LB3`.
* `src/unnamed/part_002` — schema version 5, with independent per-bucket
  progress cursors and completeness flags.  Embedded in namespace `LB5`.

The event codec (`extractBytesParamFromLogData`, `decodePointsAndWeek`),
`addrFromTopic`, `pruneToTop`, `sortMapToArray` and `weekStartUtcMs` are
byte-identical across all three revisions, so they are embedded once.

Modelling conventions:

* JavaScript `BigInt` values are modelled as `Int` (arbitrary precision,
  truncating `/` only ever applied to positive operands here).
* JavaScript `number` week timestamps and block counts are modelled as
  `Int`; all values compared in the code are far below `2^53`, where the
  IEEE-754 double of an integer is exact, so integer comparison is a
  faithful model of the `Number(...)` comparisons in the source.
* Fallible operations (`BigInt(...)` on a malformed string throws) are
  modelled with `Option`/`Except`.
* I/O (RPC calls, BaseScan queries, the clock) is modelled by explicit
  oracle parameters: each network interaction point of a function becomes
  an input describing the outcome the outside world produced.
* A value of `none` at the outermost `Option` of a modelled computation
  means the oracle stream was exhausted (the model ran out of scripted
  interaction outcomes); it corresponds to no JavaScript behaviour and
  every theorem is conditional on the computation producing `some`.
-/

/-! ## Decimal and hexadecimal digit machinery

Models of `BigInt.prototype.toString(10)`, `BigInt(decimalString)` and
`BigInt("0x" + hexString)` as used by the serializer and the codec. -/

/-- Generic most-significant-digit-first accumulator parse.  `val` maps a
character to its digit value (`none` for an invalid digit, which models a
thrown `SyntaxError`). -/
def parseDigitsWith (val : Char → Option Nat) (base : Nat) : Nat → List Char → Option Nat
  | acc, [] => some acc
  | acc, c :: cs =>
    match val c with
    | some d => parseDigitsWith val base (acc * base + d) cs
    | none => none

/-- Digit value of a decimal character, as accepted by `BigInt(...)`. -/
def decDigitVal (c : Char) : Option Nat :=
  if '0' ≤ c ∧ c ≤ '9' then some (c.toNat - 48) else none

/-- Digit value of a hexadecimal character, as accepted by `BigInt("0x…")`. -/
def hexDigitVal (c : Char) : Option Nat :=
  if '0' ≤ c ∧ c ≤ '9' then some (c.toNat - 48)
  else if 'a' ≤ c ∧ c ≤ 'f' then some (c.toNat - 87)
  else if 'A' ≤ c ∧ c ≤ 'F' then some (c.toNat - 55)
  else none

/-- Decimal digits of `n`, most significant first (model of
`Nat` rendering used by `BigInt.prototype.toString`). -/
def natDecDigits (n : Nat) : List Char :=
  if _h : n < 10 then [Nat.digitChar n]
  else natDecDigits (n / 10) ++ [Nat.digitChar (n % 10)]
decreasing_by exact Nat.div_lt_self (by omega) (by omega)

/-- `w` hexadecimal digits of `n`, most significant first (the fixed-width
big-endian words of the reference ABI encoding). -/
def natHexDigits : Nat → Nat → List Char
  | 0, _ => []
  | w + 1, n => natHexDigits w (n / 16) ++ [Nat.digitChar (n % 16)]

/-- Model of `BigInt.prototype.toString(10)` on an `Int`. -/
def intToDecString (i : Int) : String :=
  if i < 0 then String.mk ('-' :: natDecDigits (-i).toNat)
  else String.mk (natDecDigits i.toNat)

/-- Model of `BigInt(s)` for the decimal string literals the serializer
emits (optional sign, decimal digits; the empty string is `0n` in
JavaScript).  Other JavaScript numeric-literal forms never occur in the
values this code serializes. -/
def jsBigIntOfDec (s : String) : Option Int :=
  match s.data with
  | [] => some 0
  | c :: cs =>
    if c = '-' then
      if cs = [] then none
      else (parseDigitsWith decDigitVal 10 0 cs).map (fun n => -(n : Int))
    else (parseDigitsWith decDigitVal 10 0 (c :: cs)).map (fun n => (n : Int))

/-- Model of `BigInt("0x" + s)`: throws (`none`) when `s` is empty or has a
non-hexadecimal character. -/
def jsBigIntOfHexTail (s : String) : Option Int :=
  if s.data.isEmpty then none
  else (parseDigitsWith hexDigitVal 16 0 s.data).map (fun n => (n : Int))


/-- Decidable equality for `Except`, needed to evaluate the modelled
computations on concrete inputs. -/
instance {e a : Type} [DecidableEq e] [DecidableEq a] : DecidableEq (Except e a) := fun x y =>
  match x, y with
  | .error u, .error v => decidable_of_iff (u = v) (by simp)
  | .error _, .ok _ => isFalse (fun h => Except.noConfusion h)
  | .ok _, .error _ => isFalse (fun h => Except.noConfusion h)
  | .ok u, .ok v => decidable_of_iff (u = v) (by simp)

/-! ## JavaScript string primitives

`String.prototype.slice` with its index normalisation (negative indices
count from the end, out-of-range indices clamp). -/

/-- Characters of `l.slice(i, j)` in JavaScript semantics. -/
def jsSliceList (l : List Char) (i j : Int) : List Char :=
  let len : Int := l.length
  let lo : Int := if i < 0 then max (len + i) 0 else min i len
  let hi : Int := if j < 0 then max (len + j) 0 else min j len
  (l.take hi.toNat).drop lo.toNat

/-- `s.slice(i, j)`. -/
def jsSlice (s : String) (i j : Int) : String := String.mk (jsSliceList s.data i j)

/-- `s.slice(i)` (single-argument form). -/
def jsSliceFrom (s : String) (i : Int) : String :=
  String.mk (jsSliceList s.data i s.data.length)

/-! ## Event codec (`src/api/leaderboard.js`, identical in all revisions) -/

/-- `s.startsWith("0x")`, structurally on the character list. -/
def startsWith0x (s : String) : Bool :=
  match s.data with
  | '0' :: 'x' :: _ => true
  | _ => false

/-- `s.startsWith("0x") ? s.slice(2) : s`, the prefix-stripping idiom used
throughout the codec. -/
def stripHex0x (s : String) : String :=
  if startsWith0x s then jsSliceFrom s 2 else s

/-- One normalized on-chain log record: the `topics` array and the raw
`data` hex string — the only two fields the aggregation code reads. -/
structure Log where
  topics : List String
  data : String
deriving Repr, DecidableEq

/-- `addrFromTopic(topic1)`: last 40 characters of the (0x-stripped) topic,
prefixed with `0x` and lowercased.  The argument is `Option` because the
call sites use `l.topics?.[1]`, which is `undefined` when absent. -/
def addrFromTopic (topic1 : Option String) : String :=
  let t0 := topic1.getD ""
  let t := if startsWith0x t0 then jsSliceFrom t0 2 else t0
  ("0x" ++ jsSliceFrom t ((t.data.length : Int) - 40)).toLower

/-- A decoded `(points, weekBucket)` pair, both `uint256` in the contract. -/
structure PointsWeek where
  points : Int
  week : Int
deriving Repr, DecidableEq

/-- `extractBytesParamFromLogData(dataHex)`.

Two supported layouts: A) `[offset][length][bytes…]` when the first word is
32, and B) `[timestamp][offset][length][bytes…]` otherwise.  `.ok none`
models a `return null`, `.error ()` models a thrown exception (the
`BigInt("0x…")` calls throw on non-hexadecimal characters).  The
`Number(...)` conversions in the source are exact below `2^53` and feed
only comparisons whose outcome is unchanged by rounding above it, so the
words are modelled as exact integers. -/
def extractBytesParamFromLogData (dataHex : String) : Except Unit (Option String) :=
  let hex := stripHex0x dataHex
  let hexLen : Int := hex.data.length
  if hex.data.length < 128 then .ok none
  else
    match jsBigIntOfHexTail (jsSlice hex 0 64), jsBigIntOfHexTail (jsSlice hex 64 128) with
    | none, _ => .error ()
    | some _, none => .error ()
    | some w0, some w1 =>
      let lenPos : Int := if w0 = 32 then 64 else w1 * 2
      let bytesStart : Int := if w0 = 32 then 128 else w1 * 2 + 64
      if w0 ≠ 32 ∧ lenPos + 64 > hexLen then .ok none
      else
        match jsBigIntOfHexTail (jsSlice hex lenPos (lenPos + 64)) with
        | none => .error ()
        | some len =>
          let endPos : Int := bytesStart + len * 2
          if endPos > hexLen then .ok none
          else .ok (some ("0x" ++ jsSlice hex bytesStart endPos))

/-- `decodePointsAndWeek(payloadHex)`: two consecutive 32-byte big-endian
words, points then week-start milliseconds.  `none` input models a `null`
argument (extraction already failed). -/
def decodePointsAndWeek (payloadHex : Option String) : Except Unit (Option PointsWeek) :=
  let hex := match payloadHex with
    | some p => stripHex0x p
    | none => ""
  if hex.data.length < 128 then .ok none
  else
    match jsBigIntOfHexTail (jsSlice hex 0 64), jsBigIntOfHexTail (jsSlice hex 64 128) with
    | some p, some w => .ok (some ⟨p, w⟩)
    | _, _ => .error ()

/-- The decode pipeline exactly as the merge loops run it:
`extractBytesParamFromLogData` followed by `decodePointsAndWeek`. -/
def decodePipeline (dataHex : String) : Except Unit (Option PointsWeek) :=
  match extractBytesParamFromLogData dataHex with
  | .error e => .error e
  | .ok payload => decodePointsAndWeek payload

/-! ## Week arithmetic

`weekStartUtcMs(now)` computes, through the `Date` UTC accessors, the
millisecond timestamp of the most recent Monday 00:00:00 UTC.  JavaScript
time has no leap seconds: a UTC day is exactly 86400000 ms and
`getUTCDay()` equals `(floor(t / 86400000) + 4) mod 7` (the epoch was a
Thursday), with `Date.UTC(y, m, d - diffToMon)` rolling the day-of-month
over linearly.  The definition below is that closed linear form. -/
def weekStartUtcMs (now : Int) : Int :=
  let d := Int.fdiv now 86400000
  (d - (d + 3) % 7) * 86400000

/-- One week in milliseconds: `7 * 24 * 60 * 60 * 1000`. -/
def ONE_WEEK_MS : Int := 604800000

/-! ## Totals maps (JavaScript `Map` as an insertion-ordered list) -/

/-- `m.get(k)` on a string-keyed `Map`. -/
def mapGet (m : List (String × Int)) (k : String) : Option Int :=
  (m.find? (fun e => e.1 == k)).map (fun e => e.2)

/-- `m.set(k, v)`: update in place, preserving insertion order; append when
the key is new. -/
def mapSet (m : List (String × Int)) (k : String) (v : Int) : List (String × Int) :=
  match m with
  | [] => [(k, v)]
  | e :: rest => if e.1 == k then (k, v) :: rest else e :: mapSet rest k v

/-- Stable descending insertion: place `e` before the first entry whose
total does not exceed `e`'s.  `sortEntriesDesc` inserts with `foldr`, so the
accumulator holds entries that come after `e` in the map; placing `e` ahead
of equal totals keeps ties in insertion order, as the stable ECMAScript
sort does. -/
def insertDesc (e : String × Int) : List (String × Int) → List (String × Int)
  | [] => [e]
  | x :: xs => if x.2 ≤ e.2 then e :: x :: xs else x :: insertDesc e xs

/-- The entries sorted by the comparator
`(a, b) => (b[1] > a[1] ? 1 : b[1] < a[1] ? -1 : 0)`: descending by total,
ties kept in insertion order.  An ECMAScript sort is stable, and a stable
descending sort is uniquely determined, so this insertion sort is an exact
model of the source's `[...map.entries()].sort(...)`. -/
def sortEntriesDesc (m : List (String × Int)) : List (String × Int) :=
  m.foldr insertDesc []

/-- `pruneToTop(map, keep)`: sort descending by total, keep the first
`keep` entries. -/
def pruneToTop (m : List (String × Int)) (keep : Nat) : List (String × Int) :=
  (sortEntriesDesc m).take keep

/-- One row of the formatted leaderboard: address plus stringified points. -/
structure RankEntry where
  address : String
  points : String
deriving Repr, DecidableEq

/-- `sortMapToArray(m)`. -/
def sortMapToArray (m : List (String × Int)) : List RankEntry :=
  (sortEntriesDesc m).map (fun e => ⟨e.1, intToDecString e.2⟩)

/-- `MAX_TOP`: leaderboard view size. -/
def MAX_TOP : Nat := 100

/-- `PRUNE_KEEP`: how many entries of a bucket survive pruning. -/
def PRUNE_KEEP : Nat := 250

/-- `MAX_SERVERLESS_MS`: the wall-clock budget of one invocation. -/
def MAX_SERVERLESS_MS : Int := 8500

/-! ## Chunked RPC log scan (`fetchLogsRange`)

Each loop iteration of `fetchLogsRange` reads the clock once and (when the
deadline has not fired) performs one `eth_getLogs` attempt whose outcome the
error-classification code inspects.  An iteration is therefore driven by one
`FetchEvent`: the clock value it observed and the outcome the RPC rotation
produced for it. -/

/-- Outcome of one `withRpcRotation(eth_getLogs)` attempt, as classified by
the `catch` block of `fetchLogsRange`. -/
inductive RpcOutcome where
  /-- The call returned a log array. -/
  | success (logs : List Log)
  /-- A permanent free-tier rejection: re-thrown. -/
  | errFreeTier
  /-- A "range is too large" class error: halve the step and retry. -/
  | errRangeTooLarge
  /-- Rate limiting / timeout: sleep and retry the same range. -/
  | errRateLimit
  /-- Any other error: halve the step and retry. -/
  | errUnknown
deriving Repr, DecidableEq

/-- One loop iteration's environment: the `nowMs()` reading and the RPC
outcome. -/
structure FetchEvent where
  time : Int
  outcome : RpcOutcome
deriving Repr, DecidableEq

/-- Result shape of `fetchLogsRange` in `src/api/leaderboard.js`. -/
structure FetchResult where
  logs : List Log
  lastScannedBlock : Int
  complete : Bool
deriving Repr, DecidableEq

/-- The scan loop of `fetchLogsRange` (schema-4 and schema-5 revisions).
`step / 2` models BigInt division; both are truncation towards zero on the
nonnegative step values that occur. -/
def fetchLogsRangeGo (toBlock hardMinStep deadlineMs : Int) :
    List FetchEvent → Int → Int → List Log → Int → Option (Except Unit FetchResult)
  | events, fromB, step, logsOut, lastScanned =>
    if fromB > toBlock then some (.ok ⟨logsOut, lastScanned, true⟩)
    else
      match events with
      | [] => none
      | e :: rest =>
        if deadlineMs ≠ 0 ∧ e.time > deadlineMs then some (.ok ⟨logsOut, lastScanned, false⟩)
        else
          let toB := min (fromB + step) toBlock
          match e.outcome with
          | .success logs =>
            fetchLogsRangeGo toBlock hardMinStep deadlineMs rest (toB + 1) step
              (logsOut ++ logs) toB
          | .errFreeTier => some (.error ())
          | .errRangeTooLarge =>
            fetchLogsRangeGo toBlock hardMinStep deadlineMs rest fromB
              (max (step / 2) hardMinStep) logsOut lastScanned
          | .errRateLimit =>
            fetchLogsRangeGo toBlock hardMinStep deadlineMs rest fromB step logsOut lastScanned
          | .errUnknown =>
            fetchLogsRangeGo toBlock hardMinStep deadlineMs rest fromB
              (max (step / 2) hardMinStep) logsOut lastScanned

/-- `fetchLogsRange(fromBlock, toBlock, stepInitial, hardMinStep, deadlineMs)`
of `src/api/leaderboard.js` (identical in `src/unnamed/part_002`), with the
scripted iteration outcomes as first argument. -/
def fetchLogsRange (events : List FetchEvent) (fromBlock toBlock stepInitial hardMinStep deadlineMs : Int) :
    Option (Except Unit FetchResult) :=
  fetchLogsRangeGo toBlock hardMinStep deadlineMs events fromBlock stepInitial []
    (if fromBlock > 0 then fromBlock - 1 else 0)

/-- The scan loop of the `src/unnamed/part_001` revision of
`fetchLogsRange`: same chunking and error handling, but it returns only the
log array — a deadline mid-scan silently `break`s with the partial array and
no progress cursor. -/
def fetchLogsRange3Go (toBlock hardMinStep deadlineMs : Int) :
    List FetchEvent → Int → Int → List Log → Option (Except Unit (List Log))
  | events, fromB, step, logsOut =>
    if fromB > toBlock then some (.ok logsOut)
    else
      match events with
      | [] => none
      | e :: rest =>
        if deadlineMs ≠ 0 ∧ e.time > deadlineMs then some (.ok logsOut)
        else
          let toB := min (fromB + step) toBlock
          match e.outcome with
          | .success logs =>
            fetchLogsRange3Go toBlock hardMinStep deadlineMs rest (toB + 1) step (logsOut ++ logs)
          | .errFreeTier => some (.error ())
          | .errRangeTooLarge =>
            fetchLogsRange3Go toBlock hardMinStep deadlineMs rest fromB
              (max (step / 2) hardMinStep) logsOut
          | .errRateLimit =>
            fetchLogsRange3Go toBlock hardMinStep deadlineMs rest fromB step logsOut
          | .errUnknown =>
            fetchLogsRange3Go toBlock hardMinStep deadlineMs rest fromB
              (max (step / 2) hardMinStep) logsOut

/-- `fetchLogsRange` of `src/unnamed/part_001`. -/
def fetchLogsRange3 (events : List FetchEvent) (fromBlock toBlock stepInitial hardMinStep deadlineMs : Int) :
    Option (Except Unit (List Log)) :=
  fetchLogsRange3Go toBlock hardMinStep deadlineMs events fromBlock stepInitial []

namespace LB

/-! ## `src/api/leaderboard.js` — schema version 4 -/

/-- `STATE_SCHEMA_VERSION` of this revision. -/
def STATE_SCHEMA_VERSION : Int := 4

/-- One week bucket: its Monday-00:00 UTC start and its totals map. -/
structure WeekBucket where
  weekMs : Int
  map : List (String × Int)
deriving Repr, DecidableEq

/-- The deserialized aggregation state (shape produced by
`deserializeState` / consumed by `serializeState`). -/
structure State where
  schemaVersion : Int
  backfillFromBlock : Option Int
  anchorTsSec : Int
  currentWeekMs : Int
  lastWeekMs : Int
  lastProcessedBlock : Option Int
  weeks : List WeekBucket
  updatedAt : Int
deriving Repr, DecidableEq

/-- Oracle environment of one engine invocation.  `now` is the `nowMs()`
reading at entry, `now2` the one used for the final `updatedAt`; `latest`
is the `eth_blockNumber` result; `rpc fromB toB` scripts the
`fetchLogsRange` iterations for a scan of `[fromB, toB]`; `scan fromB toB`
is the `fetchLogsViaBaseScan` result (`none` = it threw, including its
deadline throw); `blockByTime` / `binSearch` are the two time→block
resolution strategies (`none` = threw). -/
structure Env where
  now : Int
  now2 : Int
  latest : Int
  deadline : Int
  rpc : Int → Int → List FetchEvent
  scan : Int → Int → Option (List Log)
  blockByTime : Int → Option Int
  binSearch : Int → Option Int

/-- `state.weeks.find(x => x.weekMs === wk)?.map || new Map()`. -/
def getWeekMap (weeks : List WeekBucket) (wk : Int) : List (String × Int) :=
  ((weeks.find? (fun w => w.weekMs == wk)).map (fun w => w.map)).getD []

/-- `getOrMakeWeekMap` followed by a mutation of the returned map: update
the first bucket with the given week, or push a fresh one at the end. -/
def updateFirstWeek : List WeekBucket → Int → (List (String × Int) → List (String × Int)) → List WeekBucket
  | [], wk, f => [⟨wk, f []⟩]
  | w :: rest, wk, f =>
    if w.weekMs == wk then ⟨w.weekMs, f w.map⟩ :: rest
    else w :: updateFirstWeek rest wk f

/-- The body of the merge loop shared verbatim by `backfillTwoWeeks` and
`incrementalUpdate`: decode one log and add its points into the matching
bucket, skipping weeks outside the tracked pair.  A decode throw
(`.error`) aborts the whole loop, as in JavaScript. -/
def mergeLog (curWeekMs prevWeekMs : Int) (weeks : List WeekBucket) (l : Log) :
    Except Unit (List WeekBucket) :=
  let user := addrFromTopic (l.topics.get? 1)
  match extractBytesParamFromLogData l.data with
  | .error e => .error e
  | .ok payload =>
    match decodePointsAndWeek payload with
    | .error e => .error e
    | .ok none => .ok weeks
    | .ok (some dec) =>
      if dec.week ≠ curWeekMs ∧ dec.week ≠ prevWeekMs then .ok weeks
      else .ok (updateFirstWeek weeks dec.week
        (fun m => mapSet m user ((mapGet m user).getD 0 + dec.points)))

/-- The merge loop over a fetched log batch. -/
def mergeLogs (curWeekMs prevWeekMs : Int) (weeks : List WeekBucket) :
    List Log → Except Unit (List WeekBucket)
  | [] => .ok weeks
  | l :: rest =>
    match mergeLog curWeekMs prevWeekMs weeks l with
    | .error e => .error e
    | .ok weeks' => mergeLogs curWeekMs prevWeekMs weeks' rest

/-- `x ? x.toString() : null` on a nullable BigInt (note `0n` is falsy). -/
def optBigToStr (o : Option Int) : Option String :=
  match o with
  | none => none
  | some v => if v = 0 then none else some (intToDecString v)

/-- `backfillTwoWeeks(now, deadlineMs)`: resolve a from-block for the
previous week start (BaseScan time→block, then RPC binary search with a
2000-block buffer, then the 1.5M-block window), scan `[fromBlock, latest]`
(BaseScan first, falling back to chunked RPC), merge, prune, and record
progress — `lastProcessedBlock` is `latest` only when the scan completed. -/
def backfillTwoWeeks (now : Int) (env : Env) : Option (Except Unit State) :=
  let curWeekMs := weekStartUtcMs now
  let prevWeekMs := curWeekMs - ONE_WEEK_MS
  let latest := env.latest
  let anchorTsSec := Int.fdiv prevWeekMs 1000 - 3600
  let fromBlock :=
    match env.blockByTime anchorTsSec with
    | some b => b
    | none =>
      match env.binSearch anchorTsSec with
      | some b => if b > 2000 then b - 2000 else b
      | none => if latest > 1500000 then latest - 1500000 else 0
  let state0 : State := {
    schemaVersion := STATE_SCHEMA_VERSION
    backfillFromBlock := some fromBlock
    anchorTsSec := anchorTsSec
    currentWeekMs := curWeekMs
    lastWeekMs := prevWeekMs
    lastProcessedBlock := none
    weeks := [⟨curWeekMs, []⟩, ⟨prevWeekMs, []⟩]
    updatedAt := env.now }
  let fetched : Option (Except Unit (List Log × Int × Bool)) :=
    match env.scan fromBlock latest with
    | some logs => some (.ok (logs, latest, true))
    | none =>
      match fetchLogsRange (env.rpc fromBlock latest) fromBlock latest 8000 900 env.deadline with
      | none => none
      | some (.error e) => some (.error e)
      | some (.ok r) => some (.ok (r.logs, r.lastScannedBlock, r.complete))
  match fetched with
  | none => none
  | some (.error e) => some (.error e)
  | some (.ok (logs, lastScanned, complete)) =>
    match mergeLogs curWeekMs prevWeekMs state0.weeks logs with
    | .error e => some (.error e)
    | .ok weeks1 =>
      some (.ok { state0 with
        weeks := weeks1.map (fun w => ⟨w.weekMs, pruneToTop w.map PRUNE_KEEP⟩)
        lastProcessedBlock := some (if complete then latest else lastScanned)
        updatedAt := env.now2 })

/-- `incrementalUpdate(existingState, deadlineMs)` of
`src/api/leaderboard.js`.  Note the dispatch: a missing or falsy (`0n`)
`lastProcessedBlock`, a different calendar week, or a stale schema version
all route to `backfillTwoWeeks`; there is no rollover snapshot in this
revision. -/
def incrementalUpdate (existing : Option State) (env : Env) : Option (Except Unit State) :=
  let now := env.now
  let curWeekMs := weekStartUtcMs now
  let prevWeekMs := curWeekMs - ONE_WEEK_MS
  let latest := env.latest
  match existing with
  | none => backfillTwoWeeks now env
  | some s =>
    match s.lastProcessedBlock with
    | none => backfillTwoWeeks now env
    | some lastB =>
      if lastB = 0 then backfillTwoWeeks now env
      else if s.currentWeekMs ≠ curWeekMs then backfillTwoWeeks now env
      else if s.schemaVersion < STATE_SCHEMA_VERSION then backfillTwoWeeks now env
      else
        let s1 := { s with currentWeekMs := curWeekMs, lastWeekMs := prevWeekMs }
        let fromB := lastB + 1
        if fromB > latest then some (.ok { s1 with updatedAt := env.now2 })
        else
          let fetched : Option (Except Unit (List Log × Int × Bool)) :=
            match fetchLogsRange (env.rpc fromB latest) fromB latest 8000 900 env.deadline with
            | none => none
            | some (.ok r) => some (.ok (r.logs, r.lastScannedBlock, r.complete))
            | some (.error _) =>
              match env.scan fromB latest with
              | some logs => some (.ok (logs, latest, true))
              | none => some (.error ())
          match fetched with
          | none => none
          | some (.error e) => some (.error e)
          | some (.ok (logs, lastScanned, complete)) =>
            match mergeLogs curWeekMs prevWeekMs s1.weeks logs with
            | .error e => some (.error e)
            | .ok weeks1 =>
              some (.ok { s1 with
                weeks := (weeks1.filter
                    (fun w => w.weekMs == curWeekMs || w.weekMs == prevWeekMs)).map
                  (fun w => ⟨w.weekMs, pruneToTop w.map PRUNE_KEEP⟩)
                lastProcessedBlock := some (if complete then latest else lastScanned)
                updatedAt := env.now2 })

/-- The JSON shape written by `serializeState` (256-bit integers as decimal
strings, `null` as `Option.none`). -/
structure SerializedWeek where
  weekMs : Int
  entries : List (String × String)
deriving Repr, DecidableEq

/-- The serialized aggregation state of this revision. -/
structure Serialized where
  schemaVersion : Int
  backfillFromBlock : Option String
  anchorTsSec : Int
  currentWeekMs : Int
  lastWeekMs : Int
  lastProcessedBlock : Option String
  weeks : List SerializedWeek
  updatedAt : Int
deriving Repr, DecidableEq

/-- `serializeState(state)`. -/
def serializeState (s : State) : Serialized := {
  schemaVersion := if s.schemaVersion = 0 then STATE_SCHEMA_VERSION else s.schemaVersion
  backfillFromBlock := optBigToStr s.backfillFromBlock
  anchorTsSec := s.anchorTsSec
  currentWeekMs := s.currentWeekMs
  lastWeekMs := s.lastWeekMs
  lastProcessedBlock := optBigToStr s.lastProcessedBlock
  weeks := s.weeks.map (fun w => ⟨w.weekMs, w.map.map (fun e => (e.1, intToDecString e.2))⟩)
  updatedAt := s.updatedAt }

/-- The entry loop of `deserializeState`:
`m.set(String(addr).toLowerCase(), BigInt(pts))` over the serialized
entries; a `BigInt` throw propagates as `.error`. -/
def parseEntriesJS : List (String × Int) → List (String × String) → Except Unit (List (String × Int))
  | m, [] => .ok m
  | m, (a, p) :: rest =>
    match jsBigIntOfDec p with
    | none => .error ()
    | some v => parseEntriesJS (mapSet m a.toLower v) rest

/-- The week-collection loop of `deserializeState` over `weeks[0]` and
`weeks[1]`: a missing week or a falsy (`0`) `weekMs` is skipped. -/
def collectWeeks : List (Option SerializedWeek) → Except Unit (List WeekBucket)
  | [] => .ok []
  | none :: rest => collectWeeks rest
  | some w :: rest =>
    if w.weekMs = 0 then collectWeeks rest
    else
      match parseEntriesJS [] w.entries with
      | .error e => .error e
      | .ok m =>
        match collectWeeks rest with
        | .error e => .error e
        | .ok ws => .ok (⟨w.weekMs, m⟩ :: ws)

/-- `x ? BigInt(x) : null` on a nullable string field (the empty string is
falsy; a malformed string makes `BigInt` throw). -/
def parseOptBig (o : Option String) : Except Unit (Option Int) :=
  match o with
  | none => .ok none
  | some str =>
    if str = "" then .ok none
    else
      match jsBigIntOfDec str with
      | none => .error ()
      | some v => .ok (some v)

/-- `deserializeState(s)`: `none` models both a `null` input and the
`catch`-all returning `null` on any parse throw. -/
def deserializeState (raw : Option Serialized) : Option State :=
  match raw with
  | none => none
  | some s =>
    match collectWeeks [s.weeks.get? 0, s.weeks.get? 1] with
    | .error _ => none
    | .ok weeks =>
      match parseOptBig s.backfillFromBlock, parseOptBig s.lastProcessedBlock with
      | .ok bfb, .ok lpb =>
        some {
          schemaVersion := s.schemaVersion
          backfillFromBlock := bfb
          anchorTsSec := s.anchorTsSec
          currentWeekMs := s.currentWeekMs
          lastWeekMs := s.lastWeekMs
          lastProcessedBlock := lpb
          weeks := weeks
          updatedAt := s.updatedAt }
      | _, _ => none

/-- A leaderboard row after optional name enrichment (`name` is the
optional `….farcaster.eth` annotation). -/
structure NamedEntry where
  address : String
  points : String
  name : Option String
deriving Repr, DecidableEq

/-- The `meta` object of the formatted response.  `busy` models the flag
the handler merges into a cached response when the lock is held. -/
structure Meta where
  schemaVersion : Int
  weeklyUsers : Nat
  lastWeekUsers : Nat
  lastProcessedBlock : Option String
  updatedAt : Int
  busy : Bool
deriving Repr, DecidableEq

/-- The formatted response payload of `formatResponsePayload`. -/
structure Payload where
  ok : Bool
  weekStart : Int
  prevWeekStart : Int
  weekly : List NamedEntry
  lastWeek : List NamedEntry
  meta : Meta
deriving Repr, DecidableEq

/-- The `enrich` closure of `formatResponsePayload`. -/
def enrichEntries (includeNames : Bool) (fcMap : Option (List (String × String)))
    (arr : List RankEntry) : List NamedEntry :=
  arr.map (fun it =>
    match includeNames, fcMap with
    | true, some fm =>
      match (fm.find? (fun e => e.1 == it.address.toLower)).map (fun e => e.2) with
      | some u => ⟨it.address, it.points, some (u ++ ".farcaster.eth")⟩
      | none => ⟨it.address, it.points, none⟩
    | _, _ => ⟨it.address, it.points, none⟩)

/-- `formatResponsePayload(state, { includeNames, fcMap })`. -/
def formatResponsePayload (s : State) (includeNames : Bool)
    (fcMap : Option (List (String × String))) : Payload :=
  let curMap := getWeekMap s.weeks s.currentWeekMs
  let prevMap := getWeekMap s.weeks s.lastWeekMs
  let weekly := (sortMapToArray curMap).take MAX_TOP
  let lastWeek := (sortMapToArray prevMap).take MAX_TOP
  { ok := true
    weekStart := s.currentWeekMs
    prevWeekStart := s.lastWeekMs
    weekly := enrichEntries includeNames fcMap weekly
    lastWeek := enrichEntries includeNames fcMap lastWeek
    meta := {
      schemaVersion := if s.schemaVersion = 0 then STATE_SCHEMA_VERSION else s.schemaVersion
      weeklyUsers := curMap.length
      lastWeekUsers := prevMap.length
      lastProcessedBlock := optBigToStr s.lastProcessedBlock
      updatedAt := s.updatedAt
      busy := false } }

/-! ### The request orchestrator (`module.exports = async function handler`) -/

/-- Store operations the handler performs, in order, on the key-value
store (used to express that lock release is attempted on the error path). -/
inductive Op where
  | acquireLock
  | releaseLock
  | persistState
  | persistResp
deriving Repr, DecidableEq

/-- The response body: a formatted (or cached) payload, or the
`ok:false` error envelope built in the `catch` block. -/
inductive Body where
  | payload (p : Payload)
  | errEnvelope
deriving Repr, DecidableEq

/-- The `ok` discriminator of the body. -/
def Body.okFlag : Body → Bool
  | .payload p => p.ok
  | .errEnvelope => false

/-- An HTTP response: status code and body. -/
structure HResp where
  status : Nat
  body : Body
deriving Repr, DecidableEq

/-- Oracle environment of one handler invocation.  The cache reads, state
read, Neynar lookup and the two persist writes can each throw (`.error`);
`lockOk` is the `storeAcquireLock` result (that function catches its own
errors and never throws). -/
structure HEnv where
  refresh : Bool
  includeNames : Bool
  cache1 : Except Unit (Option Payload)
  lockOk : Bool
  cache2 : Except Unit (Option Payload)
  rawState : Except Unit (Option Serialized)
  uenv : Env
  namesNow : Int
  names : Except Unit (List (String × String))
  setState : Except Unit Unit
  setResp : Except Unit Unit

/-- The `catch` block: attempt lock release, then answer HTTP 200 with the
`ok:false` envelope. -/
def catchResp (ops : List Op) : HResp × List Op :=
  (⟨200, .errEnvelope⟩, ops ++ [.releaseLock])

/-- The tail of the handler after the fast path and lock logic: read and
deserialize state, run the incremental update, optionally resolve names,
format, persist, release the lock, and respond. -/
def handlerCore (henv : HEnv) (deadlineMs : Int) (ops : List Op) : Option (HResp × List Op) :=
  match henv.rawState with
  | .error _ => some (catchResp ops)
  | .ok raw =>
    match incrementalUpdate (deserializeState raw) { henv.uenv with deadline := deadlineMs } with
    | none => none
    | some (.error _) => some (catchResp ops)
    | some (.ok updated) =>
      let fcEx : Except Unit (Option (List (String × String))) :=
        if henv.includeNames ∧ henv.namesNow < deadlineMs - 500 then
          match henv.names with
          | .error e => .error e
          | .ok m => .ok (some m)
        else .ok none
      match fcEx with
      | .error _ => some (catchResp ops)
      | .ok fcMap =>
        let resp := formatResponsePayload updated henv.includeNames fcMap
        match henv.setState with
        | .error _ => some (catchResp ops)
        | .ok _ =>
          match henv.setResp with
          | .error _ => some (catchResp (ops ++ [.persistState]))
          | .ok _ =>
            some (⟨200, .payload resp⟩, ops ++ [.persistState, .persistResp, .releaseLock])

/-- The request handler.  Fast path on the cached response unless
`refresh=1`; best-effort lock; when the lock is missed and this is not a
forced refresh, serve the cache with a `busy` flag; otherwise update,
persist, release and respond — with the `catch` block turning any thrown
error into a 200 `ok:false` envelope after attempting lock release. -/
def handler (henv : HEnv) : Option (HResp × List Op) :=
  let deadlineMs := henv.uenv.now + MAX_SERVERLESS_MS
  match (if henv.refresh then Except.ok none else henv.cache1 : Except Unit (Option Payload)) with
  | .error _ => some (catchResp [])
  | .ok (some cached) => some (⟨200, Body.payload cached⟩, [])
  | .ok none =>
    let ops := [Op.acquireLock]
    if ¬ henv.lockOk ∧ ¬ henv.refresh then
      match henv.cache2 with
      | .error _ => some (catchResp ops)
      | .ok (some cached) =>
        some (⟨200, Body.payload { cached with meta := { cached.meta with busy := true } }⟩, ops)
      | .ok none => handlerCore henv deadlineMs ops
    else handlerCore henv deadlineMs ops

end LB

namespace LB3

/-! ## `src/unnamed/part_001` — the earlier revision with the rollover
snapshot.  Its decode/merge/prune helpers are byte-identical to the
schema-4 revision, so `LB.mergeLogs`, `LB.getWeekMap` and the shared codec
are reused; its `fetchLogsRange` returns a bare log array
(`fetchLogsRange3`) and its state has no schema version. -/

/-- `PRUNE_KEEP` of this revision: part_001 keeps the top 5000 entries per
bucket (the schema-4 revision lowered it to 250). -/
def PRUNE_KEEP : Nat := 5000

/-- The aggregation state of this revision (see its `deserializeState`):
no `schemaVersion`, a single shared `lastProcessedBlock` cursor. -/
structure State where
  currentWeekMs : Int
  lastWeekMs : Int
  lastProcessedBlock : Option Int
  weeks : List LB.WeekBucket
  updatedAt : Int
deriving Repr, DecidableEq

/-- Oracle environment (same conventions as `LB.Env`; this revision does
no time→block resolution at all). -/
structure Env where
  now : Int
  now2 : Int
  latest : Int
  deadline : Int
  rpc : Int → Int → List FetchEvent
  scan : Int → Int → Option (List Log)

/-- `backfillTwoWeeks(now, deadlineMs)` of this revision: fixed
1 200 000-block window, BaseScan first with chunked-RPC fallback, then the
merge/prune loop; `lastProcessedBlock` is set to `latest` unconditionally. -/
def backfillTwoWeeks (now : Int) (env : Env) : Option (Except Unit State) :=
  let curWeekMs := weekStartUtcMs now
  let prevWeekMs := curWeekMs - ONE_WEEK_MS
  let latest := env.latest
  let fromBlock := if latest > 1200000 then latest - 1200000 else 0
  let state0 : State := {
    currentWeekMs := curWeekMs
    lastWeekMs := prevWeekMs
    lastProcessedBlock := none
    weeks := [⟨curWeekMs, []⟩, ⟨prevWeekMs, []⟩]
    updatedAt := env.now }
  let fetched : Option (Except Unit (List Log)) :=
    match env.scan fromBlock latest with
    | some logs => some (.ok logs)
    | none => fetchLogsRange3 (env.rpc fromBlock latest) fromBlock latest 8000 900 env.deadline
  match fetched with
  | none => none
  | some (.error e) => some (.error e)
  | some (.ok logs) =>
    match LB.mergeLogs curWeekMs prevWeekMs state0.weeks logs with
    | .error e => some (.error e)
    | .ok weeks1 =>
      some (.ok { state0 with
        weeks := weeks1.map (fun w => ⟨w.weekMs, pruneToTop w.map PRUNE_KEEP⟩)
        lastProcessedBlock := some latest
        updatedAt := env.now2 })

/-- `incrementalUpdate(existingState, deadlineMs)` of this revision: cold
start or falsy cursor → backfill; a calendar week advanced by exactly one
→ rollover snapshot (old current bucket becomes the previous bucket, new
empty current bucket, cursor untouched); more than one week → backfill;
then the usual incremental catch-up from `lastProcessedBlock + 1`. -/
def incrementalUpdate (existing : Option State) (env : Env) : Option (Except Unit State) :=
  let now := env.now
  let curWeekMs := weekStartUtcMs now
  let prevWeekMs := curWeekMs - ONE_WEEK_MS
  let latest := env.latest
  match existing with
  | none => backfillTwoWeeks now env
  | some s =>
    match s.lastProcessedBlock with
    | none => backfillTwoWeeks now env
    | some lastB =>
      if lastB = 0 then backfillTwoWeeks now env
      else if s.currentWeekMs ≠ curWeekMs ∧ s.currentWeekMs ≠ prevWeekMs then
        backfillTwoWeeks now env
      else
        let s1 : State :=
          if s.currentWeekMs ≠ curWeekMs then
            { s with
              currentWeekMs := curWeekMs
              lastWeekMs := prevWeekMs
              weeks := [⟨curWeekMs, []⟩, ⟨prevWeekMs, LB.getWeekMap s.weeks s.currentWeekMs⟩] }
          else { s with currentWeekMs := curWeekMs, lastWeekMs := prevWeekMs }
        let fromB := lastB + 1
        if fromB > latest then some (.ok { s1 with updatedAt := env.now2 })
        else
          let fetched : Option (Except Unit (List Log)) :=
            match fetchLogsRange3 (env.rpc fromB latest) fromB latest 8000 900 env.deadline with
            | none => none
            | some (.ok logs) => some (.ok logs)
            | some (.error _) =>
              match env.scan fromB latest with
              | some logs => some (.ok logs)
              | none => some (.error ())
          match fetched with
          | none => none
          | some (.error e) => some (.error e)
          | some (.ok logs) =>
            match LB.mergeLogs curWeekMs prevWeekMs s1.weeks logs with
            | .error e => some (.error e)
            | .ok weeks1 =>
              some (.ok { s1 with
                weeks := (weeks1.filter
                    (fun w => w.weekMs == curWeekMs || w.weekMs == prevWeekMs)).map
                  (fun w => ⟨w.weekMs, pruneToTop w.map PRUNE_KEEP⟩)
                lastProcessedBlock := some latest
                updatedAt := env.now2 })

end LB3

namespace LB5

/-! ## `src/unnamed/part_002` — schema version 5, independent per-bucket
cursors.  The claims about this revision concern its data model,
serialization and response formatting, which are embedded here. -/

/-- `STATE_SCHEMA_VERSION` of this revision. -/
def STATE_SCHEMA_VERSION : Int := 5

/-- The deserialized aggregation state: precise block boundaries for both
week ranges and an independent `(processedBlock, complete)` cursor per
bucket. -/
structure State where
  schemaVersion : Int
  currentWeekMs : Int
  lastWeekMs : Int
  prevWeekFromBlock : Option Int
  prevWeekToBlock : Option Int
  curWeekFromBlock : Option Int
  prevWeekProcessedBlock : Option Int
  curWeekProcessedBlock : Option Int
  latestBlock : Option Int
  completePrevWeek : Bool
  completeCurWeek : Bool
  weeks : List LB.WeekBucket
  updatedAt : Int
deriving Repr, DecidableEq

/-- The serialized state of this revision. -/
structure Serialized where
  schemaVersion : Int
  currentWeekMs : Int
  lastWeekMs : Int
  prevWeekFromBlock : Option String
  prevWeekToBlock : Option String
  curWeekFromBlock : Option String
  prevWeekProcessedBlock : Option String
  curWeekProcessedBlock : Option String
  latestBlock : Option String
  completePrevWeek : Bool
  completeCurWeek : Bool
  weeks : List LB.SerializedWeek
  updatedAt : Int
deriving Repr, DecidableEq

/-- `serializeState(state)` of this revision. -/
def serializeState (s : State) : Serialized := {
  schemaVersion := if s.schemaVersion = 0 then STATE_SCHEMA_VERSION else s.schemaVersion
  currentWeekMs := s.currentWeekMs
  lastWeekMs := s.lastWeekMs
  prevWeekFromBlock := LB.optBigToStr s.prevWeekFromBlock
  prevWeekToBlock := LB.optBigToStr s.prevWeekToBlock
  curWeekFromBlock := LB.optBigToStr s.curWeekFromBlock
  prevWeekProcessedBlock := LB.optBigToStr s.prevWeekProcessedBlock
  curWeekProcessedBlock := LB.optBigToStr s.curWeekProcessedBlock
  latestBlock := LB.optBigToStr s.latestBlock
  completePrevWeek := s.completePrevWeek
  completeCurWeek := s.completeCurWeek
  weeks := s.weeks.map (fun w => ⟨w.weekMs, w.map.map (fun e => (e.1, intToDecString e.2))⟩)
  updatedAt := s.updatedAt }

/-- `deserializeState(s)` of this revision. -/
def deserializeState (raw : Option Serialized) : Option State :=
  match raw with
  | none => none
  | some s =>
    match LB.collectWeeks [s.weeks.get? 0, s.weeks.get? 1] with
    | .error _ => none
    | .ok weeks =>
      match LB.parseOptBig s.prevWeekFromBlock, LB.parseOptBig s.prevWeekToBlock,
        LB.parseOptBig s.curWeekFromBlock, LB.parseOptBig s.prevWeekProcessedBlock,
        LB.parseOptBig s.curWeekProcessedBlock, LB.parseOptBig s.latestBlock with
      | .ok pf, .ok pt, .ok cf, .ok pp, .ok cp, .ok lb =>
        some {
          schemaVersion := s.schemaVersion
          currentWeekMs := s.currentWeekMs
          lastWeekMs := s.lastWeekMs
          prevWeekFromBlock := pf
          prevWeekToBlock := pt
          curWeekFromBlock := cf
          prevWeekProcessedBlock := pp
          curWeekProcessedBlock := cp
          latestBlock := lb
          completePrevWeek := s.completePrevWeek
          completeCurWeek := s.completeCurWeek
          weeks := weeks
          updatedAt := s.updatedAt }
      | _, _, _, _, _, _ => none

/-- The `meta` object of this revision's formatted response: per-bucket
from/to/processed blocks and per-bucket completeness flags. -/
structure Meta where
  schemaVersion : Int
  weeklyUsers : Nat
  lastWeekUsers : Nat
  latestBlock : Option String
  curWeekFromBlock : Option String
  prevWeekFromBlock : Option String
  prevWeekToBlock : Option String
  curWeekProcessedBlock : Option String
  prevWeekProcessedBlock : Option String
  completeCurWeek : Bool
  completePrevWeek : Bool
  complete : Bool
  store : String
  updatedAt : Int
deriving Repr, DecidableEq

/-- The formatted response payload of this revision. -/
structure Payload where
  ok : Bool
  weekStart : Int
  prevWeekStart : Int
  weekly : List LB.NamedEntry
  lastWeek : List LB.NamedEntry
  meta : Meta
deriving Repr, DecidableEq

/-- `formatResponsePayload(state, { includeNames, fcMap })` of this
revision.  `storeDesc` is the ambient store description string
(`store?.kind` or `"memory"`). -/
def formatResponsePayload (s : State) (includeNames : Bool)
    (fcMap : Option (List (String × String))) (storeDesc : String) : Payload :=
  let curMap := LB.getWeekMap s.weeks s.currentWeekMs
  let prevMap := LB.getWeekMap s.weeks s.lastWeekMs
  let weekly := (sortMapToArray curMap).take MAX_TOP
  let lastWeek := (sortMapToArray prevMap).take MAX_TOP
  { ok := true
    weekStart := s.currentWeekMs
    prevWeekStart := s.lastWeekMs
    weekly := LB.enrichEntries includeNames fcMap weekly
    lastWeek := LB.enrichEntries includeNames fcMap lastWeek
    meta := {
      schemaVersion := if s.schemaVersion = 0 then STATE_SCHEMA_VERSION else s.schemaVersion
      weeklyUsers := curMap.length
      lastWeekUsers := prevMap.length
      latestBlock := LB.optBigToStr s.latestBlock
      curWeekFromBlock := LB.optBigToStr s.curWeekFromBlock
      prevWeekFromBlock := LB.optBigToStr s.prevWeekFromBlock
      prevWeekToBlock := LB.optBigToStr s.prevWeekToBlock
      curWeekProcessedBlock := LB.optBigToStr s.curWeekProcessedBlock
      prevWeekProcessedBlock := LB.optBigToStr s.prevWeekProcessedBlock
      completeCurWeek := s.completeCurWeek
      completePrevWeek := s.completePrevWeek
      complete := s.completeCurWeek && s.completePrevWeek
      store := storeDesc
      updatedAt := s.updatedAt } }

end LB5

/-! ## Reference encoding (for the round-trip claim) -/

/-- Modelled from the spec: the reference encoding of the event payload —
the 32-byte big-endian word of `points` followed by the 32-byte big-endian
word of `week`, as a hex string. -/
def encodePointsWeekPayload (p w : Nat) : String :=
  "0x" ++ String.mk (natHexDigits 64 p ++ natHexDigits 64 w)

/-! ## Concrete inputs used by the witnesses and counterexamples -/

/-- A sample `Date.now()` value (2025-10-09, a Thursday, UTC). -/
def nowSample : Int := 1760000000000

/-- `weekStartUtcMs nowSample`: Monday 2025-10-06 00:00:00 UTC. -/
def WCUR : Int := 1759708800000

/-- The week before `WCUR`: Monday 2025-09-29 00:00:00 UTC. -/
def WPREV : Int := 1759104000000

/-- A schema-4 state whose calendar week is exactly one week behind
`nowSample`, with a nonempty current bucket. -/
def C1state : LB.State := {
  schemaVersion := 4
  backfillFromBlock := none
  anchorTsSec := 0
  currentWeekMs := WPREV
  lastWeekMs := WPREV - ONE_WEEK_MS
  lastProcessedBlock := some 100
  weeks := [⟨WPREV, [("0xaa", 5)]⟩, ⟨WPREV - ONE_WEEK_MS, []⟩]
  updatedAt := 1 }

/-- Oracles for the `C1state` run: BaseScan time→block answers 50, the
BaseScan log scan answers an empty batch. -/
def C1env : LB.Env := {
  now := nowSample
  now2 := 77
  latest := 1000
  deadline := 0
  rpc := fun _ _ => []
  scan := fun _ _ => some []
  blockByTime := fun _ => some 50
  binSearch := fun _ => none }

/-- What `incrementalUpdate` actually returns on `C1state`/`C1env`: a cold
backfill result with both buckets empty. -/
def C1result : LB.State := {
  schemaVersion := 4
  backfillFromBlock := some 50
  anchorTsSec := 1759100400
  currentWeekMs := WCUR
  lastWeekMs := WPREV
  lastProcessedBlock := some 1000
  weeks := [⟨WCUR, []⟩, ⟨WPREV, []⟩]
  updatedAt := 77 }

/-- A part_001-revision state one calendar week behind `nowSample`, cursor
already at the chain head. -/
def C1rollState : LB3.State := {
  currentWeekMs := WPREV
  lastWeekMs := WPREV - ONE_WEEK_MS
  lastProcessedBlock := some 900
  weeks := [⟨WPREV, [("0xbb", 11)]⟩, ⟨WPREV - ONE_WEEK_MS, [("0xcc", 3)]⟩]
  updatedAt := 2 }

/-- Oracles for the `C1rollState` run. -/
def C1rollEnv : LB3.Env := {
  now := nowSample
  now2 := 88
  latest := 900
  deadline := 0
  rpc := fun _ _ => []
  scan := fun _ _ => none }

/-- A current-week schema-4 state with cursor 100. -/
def C4state : LB.State := {
  schemaVersion := 4
  backfillFromBlock := none
  anchorTsSec := 0
  currentWeekMs := WCUR
  lastWeekMs := WPREV
  lastProcessedBlock := some 100
  weeks := [⟨WCUR, []⟩, ⟨WPREV, []⟩]
  updatedAt := 1 }

/-- Oracles with `latest = 100` (cursor already caught up). -/
def C4env : LB.Env := {
  now := nowSample
  now2 := 5
  latest := 100
  deadline := 0
  rpc := fun _ _ => []
  scan := fun _ _ => none
  blockByTime := fun _ => none
  binSearch := fun _ => none }

/-- The no-op-path result on `C4state`/`C4env`. -/
def C4result : LB.State := { C4state with updatedAt := 5 }

/-- A reusable state whose persisted `lastWeekMs` does not satisfy the
week-pair relation (`0` instead of `currentWeekMs - ONE_WEEK_MS`). -/
def C10state : LB.State := {
  schemaVersion := 4
  backfillFromBlock := none
  anchorTsSec := 0
  currentWeekMs := WCUR
  lastWeekMs := 0
  lastProcessedBlock := some 500
  weeks := [⟨WCUR, [("0xaa", 7)]⟩]
  updatedAt := 1 }

/-- Oracles with `latest = 400 < lastProcessedBlock`. -/
def C10env : LB.Env := {
  now := nowSample
  now2 := 99
  latest := 400
  deadline := 0
  rpc := fun _ _ => []
  scan := fun _ _ => none
  blockByTime := fun _ => none
  binSearch := fun _ => none }

/-- The no-op-path result on `C10state`/`C10env`: `lastWeekMs` is
rewritten. -/
def C10result : LB.State := { C10state with lastWeekMs := WPREV, updatedAt := 99 }

/-- A schema-5 state whose current week is complete while the previous
week's backfill is still catching up. -/
def C2state : LB5.State := {
  schemaVersion := 5
  currentWeekMs := WCUR
  lastWeekMs := WPREV
  prevWeekFromBlock := some 10
  prevWeekToBlock := some 49
  curWeekFromBlock := some 50
  prevWeekProcessedBlock := some 45
  curWeekProcessedBlock := some 123
  latestBlock := some 130
  completePrevWeek := false
  completeCurWeek := true
  weeks := [⟨WCUR, [("0xaa", 2)]⟩, ⟨WPREV, []⟩]
  updatedAt := 3 }

/-- A schema-4 state analogous to `C2state`, for evaluating the cited
revision's serializer and response formatter. -/
def C2state4 : LB.State := {
  schemaVersion := 4
  backfillFromBlock := some 10
  anchorTsSec := 7
  currentWeekMs := WCUR
  lastWeekMs := WPREV
  lastProcessedBlock := some 123
  weeks := [⟨WCUR, [("0xaa", 2)]⟩, ⟨WPREV, []⟩]
  updatedAt := 3 }

/-- A handler environment whose state read throws. -/
def C9henv : LB.HEnv := {
  refresh := true
  includeNames := false
  cache1 := .ok none
  lockOk := true
  cache2 := .ok none
  rawState := .error ()
  uenv := C4env
  namesNow := 0
  names := .ok []
  setState := .ok ()
  setResp := .ok () }

/-- A well-formed layout-A log `data` field: offset word 32, length word 64
(bytes), then the two payload words 7 and 999. -/
def C6data : String :=
  String.mk (natHexDigits 64 32 ++ natHexDigits 64 64 ++ natHexDigits 64 7 ++ natHexDigits 64 999)

/-- A log carrying `C6data` whose decoded week (999) matches neither
tracked week. -/
def C6log : Log := {
  topics := ["0xe00", "0x00000000000000000000000000000000000000000000000000000000000000aa"]
  data := C6data }

/-- Buckets for the two tracked weeks 100 and 50. -/
def C6weeks : List LB.WeekBucket := [⟨100, [("0xdd", 3)]⟩, ⟨50, []⟩]

/-- 128 characters of `'z'`: long enough for the length guard, not
hexadecimal. -/
def C5bad : String := String.mk (List.replicate 128 'z')

/-- The reuse path of `LB.incrementalUpdate`, as a function of exactly the
oracle values that path consumes: note the only log-source inputs are the
RPC events and BaseScan result for the range `[L + 1, latest]` — the
update never requests any other range. -/
def LB.reuseBody (s : LB.State) (now now2 latest deadline : Int)
    (rpcEvents : List FetchEvent) (scanRes : Option (List Log)) (L : Int) :
    Option (Except Unit LB.State) :=
  let curWeekMs := weekStartUtcMs now
  let prevWeekMs := curWeekMs - ONE_WEEK_MS
  let s1 := { s with currentWeekMs := curWeekMs, lastWeekMs := prevWeekMs }
  let fromB := L + 1
  if fromB > latest then some (.ok { s1 with updatedAt := now2 })
  else
    let fetched : Option (Except Unit (List Log × Int × Bool)) :=
      match fetchLogsRange rpcEvents fromB latest 8000 900 deadline with
      | none => none
      | some (.ok r) => some (.ok (r.logs, r.lastScannedBlock, r.complete))
      | some (.error _) =>
        match scanRes with
        | some logs => some (.ok (logs, latest, true))
        | none => some (.error ())
    match fetched with
    | none => none
    | some (.error e) => some (.error e)
    | some (.ok (logs, lastScanned, complete)) =>
      match LB.mergeLogs curWeekMs prevWeekMs s1.weeks logs with
      | .error e => some (.error e)
      | .ok weeks1 =>
        some (.ok { s1 with
          weeks := (weeks1.filter
              (fun w => w.weekMs == curWeekMs || w.weekMs == prevWeekMs)).map
            (fun w => ⟨w.weekMs, pruneToTop w.map PRUNE_KEEP⟩)
          lastProcessedBlock := some (if complete then latest else lastScanned)
          updatedAt := now2 })

/-! ## Lemmas about the digit codecs -/

theorem parseDigitsWith_append (val : Char → Option Nat) (b : Nat) (xs ys : List Char) :
    ∀ acc, parseDigitsWith val b acc (xs ++ ys)
      = (parseDigitsWith val b acc xs).bind (fun a => parseDigitsWith val b a ys) := by
  induction xs with
  | nil => intro acc; simp [parseDigitsWith]
  | cons c cs ih =>
    intro acc
    simp only [List.cons_append, parseDigitsWith]
    cases val c with
    | none => simp
    | some d => simpa using ih (acc * b + d)

theorem decDigitVal_digitChar : ∀ d, d < 10 → decDigitVal (Nat.digitChar d) = some d := by
  decide

theorem hexDigitVal_digitChar : ∀ d, d < 16 → hexDigitVal (Nat.digitChar d) = some d := by
  decide

theorem natDecDigits_ne_nil (n : Nat) : natDecDigits n ≠ [] := by
  rw [natDecDigits]
  split <;> simp

theorem parseDec_natDecDigits (n : Nat) :
    ∀ acc, parseDigitsWith decDigitVal 10 acc (natDecDigits n)
      = some (acc * 10 ^ (natDecDigits n).length + n) := by
  induction n using Nat.strong_induction_on with
  | _ n ih =>
    intro acc
    rw [natDecDigits]
    split
    · next h =>
      simp [parseDigitsWith, decDigitVal_digitChar n h]
    · next h =>
      have hd : n / 10 < n := Nat.div_lt_self (by omega) (by omega)
      rw [parseDigitsWith_append, ih (n / 10) hd acc]
      have hm : n % 10 < 10 := Nat.mod_lt _ (by omega)
      simp only [Option.some_bind, parseDigitsWith, decDigitVal_digitChar _ hm,
        List.length_append, List.length_singleton]
      congr 1
      have h2 : (acc * 10 ^ (natDecDigits (n / 10)).length + n / 10) * 10 + n % 10
          = acc * (10 ^ (natDecDigits (n / 10)).length * 10) + (n / 10 * 10 + n % 10) := by
        ring
      rw [h2, ← pow_succ]
      omega

theorem natDecDigits_head_ne_dash (n : Nat) :
    ∀ c cs, natDecDigits n = c :: cs → c ≠ '-' := by
  induction n using Nat.strong_induction_on with
  | _ n ih =>
    intro c cs heq
    rw [natDecDigits] at heq
    split at heq
    · next h =>
      have : ∀ d, d < 10 → Nat.digitChar d ≠ '-' := by decide
      cases heq
      exact this n h
    · next h =>
      have hd : n / 10 < n := Nat.div_lt_self (by omega) (by omega)
      rcases h10 : natDecDigits (n / 10) with _ | ⟨c', cs'⟩
      · exact absurd h10 (natDecDigits_ne_nil _)
      · rw [h10] at heq
        simp only [List.cons_append] at heq
        obtain ⟨rfl, -⟩ := List.cons.inj heq
        exact ih (n / 10) hd c' cs' h10

/-- Round trip: parsing the decimal rendering of an integer recovers it
(`BigInt(x.toString()) === x`). -/
theorem jsBigIntOfDec_intToDecString (i : Int) :
    jsBigIntOfDec (intToDecString i) = some i := by
  by_cases hneg : i < 0
  · have h1 : (intToDecString i).data = '-' :: natDecDigits (-i).toNat := by
      simp [intToDecString, hneg]
    have hne := natDecDigits_ne_nil (-i).toNat
    simp only [jsBigIntOfDec, h1, if_neg hne, parseDec_natDecDigits, zero_mul, zero_add]
    simp only [if_true, Option.some_bind, Option.map_some', Option.some.injEq,
      Option.bind_eq_bind, pure]
    omega
  · have h1 : (intToDecString i).data = natDecDigits i.toNat := by
      simp [intToDecString, hneg]
    rcases h10 : natDecDigits i.toNat with _ | ⟨c, cs⟩
    · exact absurd h10 (natDecDigits_ne_nil _)
    · simp only [jsBigIntOfDec, h1, h10, if_neg (natDecDigits_head_ne_dash _ _ _ h10)]
      rw [← h10, parseDec_natDecDigits]
      simp only [zero_mul, zero_add, Option.some_bind, Option.map_some', Option.some.injEq,
        Option.bind_eq_bind, pure]
      omega

theorem length_natHexDigits (w : Nat) : ∀ n, (natHexDigits w n).length = w := by
  induction w with
  | zero => intro n; rfl
  | succ w ih => intro n; simp [natHexDigits, ih]

theorem parseHex_natHexDigits (w : Nat) :
    ∀ n acc, n < 16 ^ w →
      parseDigitsWith hexDigitVal 16 acc (natHexDigits w n) = some (acc * 16 ^ w + n) := by
  induction w with
  | zero =>
    intro n acc hn
    interval_cases n
    simp [natHexDigits, parseDigitsWith]
  | succ w ih =>
    intro n acc hn
    have hdiv : n / 16 < 16 ^ w := by
      rw [Nat.div_lt_iff_lt_mul (by omega)]
      calc n < 16 ^ (w + 1) := hn
        _ = 16 ^ w * 16 := by rw [pow_succ]
    rw [natHexDigits, parseDigitsWith_append, ih (n / 16) acc hdiv]
    have hm : n % 16 < 16 := Nat.mod_lt _ (by omega)
    simp only [Option.some_bind, parseDigitsWith, hexDigitVal_digitChar _ hm]
    congr 1
    have h2 : (acc * 16 ^ w + n / 16) * 16 + n % 16
        = acc * (16 ^ w * 16) + (n / 16 * 16 + n % 16) := by ring
    rw [h2, ← pow_succ]
    omega

theorem natHexDigits_ne_nil (w : Nat) (n : Nat) (hw : 0 < w) : natHexDigits w n ≠ [] := by
  cases w with
  | zero => omega
  | succ w => simp [natHexDigits]

/-- Parsing succeeds on any nonempty list of hexadecimal characters. -/
theorem parseDigitsWith_isSome_of_valid (val : Char → Option Nat) (b : Nat) (l : List Char)
    (h : ∀ c ∈ l, (val c).isSome) : ∀ acc, (parseDigitsWith val b acc l).isSome := by
  induction l with
  | nil => intro acc; simp [parseDigitsWith]
  | cons c cs ih =>
    intro acc
    have hc := h c (by simp)
    rcases hv : val c with _ | d
    · rw [hv] at hc; simp at hc
    · simp only [parseDigitsWith, hv]
      exact ih (fun x hx => h x (by simp [hx])) _

/-! ## Lemmas about the stable descending sort -/

theorem insertDesc_perm (e : String × Int) (l : List (String × Int)) :
    List.Perm (insertDesc e l) (e :: l) := by
  induction l with
  | nil => exact List.Perm.refl _
  | cons x xs ih =>
    rw [insertDesc]
    split
    · exact List.Perm.refl _
    · exact List.Perm.trans (List.Perm.cons x ih) (List.Perm.swap e x xs)

theorem sortEntriesDesc_perm (m : List (String × Int)) :
    List.Perm (sortEntriesDesc m) m := by
  induction m with
  | nil => exact List.Perm.refl _
  | cons x xs ih =>
    have : sortEntriesDesc (x :: xs) = insertDesc x (sortEntriesDesc xs) := rfl
    rw [this]
    exact List.Perm.trans (insertDesc_perm x (sortEntriesDesc xs)) (List.Perm.cons x ih)

theorem insertDesc_pairwise (e : String × Int) (l : List (String × Int))
    (h : List.Pairwise (fun a b => b.2 ≤ a.2) l) :
    List.Pairwise (fun a b => b.2 ≤ a.2) (insertDesc e l) := by
  induction l with
  | nil => simp [insertDesc]
  | cons x xs ih =>
    rw [List.pairwise_cons] at h
    rw [insertDesc]
    split
    · next hlt =>
      rw [List.pairwise_cons]
      refine ⟨?_, List.pairwise_cons.mpr h⟩
      intro b hb
      rcases List.mem_cons.mp hb with rfl | hb2
      · omega
      · have := h.1 b hb2
        omega
    · next hge =>
      rw [List.pairwise_cons]
      refine ⟨?_, ih h.2⟩
      intro b hb
      have hb2 : b ∈ e :: xs := (insertDesc_perm e xs).mem_iff.mp hb
      rcases List.mem_cons.mp hb2 with rfl | hb3
      · omega
      · exact h.1 b hb3

theorem sortEntriesDesc_pairwise (m : List (String × Int)) :
    List.Pairwise (fun a b => b.2 ≤ a.2) (sortEntriesDesc m) := by
  induction m with
  | nil => simp [sortEntriesDesc]
  | cons x xs ih => exact insertDesc_pairwise x (sortEntriesDesc xs) ih

/-- C8: for every address-to-total map and every `K`, `pruneToTop(map, K)`
returns at most `K` entries and never drops a top-`K` entry: every entry it
drops has a total less than or equal to the total of every entry it keeps
(so an entry can only be displaced by entries of greater or equal total). -/
theorem C8_pruneToTop_topK (m : List (String × Int)) (keep : Nat) :
    (pruneToTop m keep).length ≤ keep ∧
      ∀ e ∈ m, e ∉ pruneToTop m keep → ∀ e2 ∈ pruneToTop m keep, e.2 ≤ e2.2 := by
  constructor
  · simp only [pruneToTop]
    exact List.length_take_le keep (sortEntriesDesc m)
  · intro e hm hnot e2 hkept
    have hes : e ∈ sortEntriesDesc m := (sortEntriesDesc_perm m).mem_iff.mpr hm
    have hsplit := List.take_append_drop keep (sortEntriesDesc m)
    have hmem : e ∈ (sortEntriesDesc m).take keep ++ (sortEntriesDesc m).drop keep := by
      rw [hsplit]; exact hes
    have hdrop : e ∈ (sortEntriesDesc m).drop keep := by
      rcases List.mem_append.mp hmem with h | h
      · exact absurd h hnot
      · exact h
    have hpw := sortEntriesDesc_pairwise m
    rw [← hsplit] at hpw
    exact (List.pairwise_append.mp hpw).2.2 e2 hkept e hdrop

/-- Witness for C8 at a concrete map: pruning `[a↦5, b↦9, c↦1]` to 2 keeps
the two largest totals, and the theorem's guarantees instantiate there. -/
theorem C8_pruneToTop_topK_witness :
    pruneToTop [("0xa", 5), ("0xb", 9), ("0xc", 1)] 2 = [("0xb", 9), ("0xa", 5)] ∧
      (∀ e ∈ [(("0xa" : String), (5 : Int)), ("0xb", 9), ("0xc", 1)],
        e ∉ pruneToTop [("0xa", 5), ("0xb", 9), ("0xc", 1)] 2 →
        ∀ e2 ∈ pruneToTop [("0xa", 5), ("0xb", 9), ("0xc", 1)] 2, e.2 ≤ e2.2) :=
  ⟨by decide, (C8_pruneToTop_topK [("0xa", 5), ("0xb", 9), ("0xc", 1)] 2).2⟩

/-- C6: the aggregation merge loop skips every decoded log whose week
bucket equals neither the tracked current week nor the tracked previous
week: the bucket list (hence every total and every address set) is
returned unchanged.  `mergeLog` is the loop body shared verbatim by
`backfillTwoWeeks` and `incrementalUpdate`. -/
theorem C6_merge_skips_foreign_week (curWeekMs prevWeekMs : Int) (weeks : List LB.WeekBucket)
    (l : Log) (pw : PointsWeek)
    (hdec : decodePipeline l.data = .ok (some pw))
    (hc : pw.week ≠ curWeekMs) (hp : pw.week ≠ prevWeekMs) :
    LB.mergeLog curWeekMs prevWeekMs weeks l = .ok weeks := by
  rcases hext : extractBytesParamFromLogData l.data with e | payload
  · exfalso
    rw [decodePipeline, hext] at hdec
    exact absurd hdec (by simp)
  · have hdec2 : decodePointsAndWeek payload = Except.ok (some pw) := by
      rw [decodePipeline, hext] at hdec
      exact hdec
    simp only [LB.mergeLog, hext, hdec2]
    rw [if_pos ⟨hc, hp⟩]

/-- Witness for C6: a concrete well-formed log decoding to week 999 leaves
the buckets for weeks 100 and 50 untouched. -/
theorem C6_merge_skips_foreign_week_witness :
    decodePipeline C6log.data = .ok (some ⟨7, 999⟩) ∧
      LB.mergeLog 100 50 C6weeks C6log = .ok C6weeks :=
  ⟨by set_option maxRecDepth 20000 in decide,
   C6_merge_skips_foreign_week 100 50 C6weeks C6log ⟨7, 999⟩
     (by set_option maxRecDepth 20000 in decide) (by decide) (by decide)⟩

/-! ## Lemmas about the string primitives and the hex parser -/

theorem string_data_mk (l : List Char) : (String.mk l).data = l := rfl

theorem string_mk_data (s : String) : String.mk s.data = s := by
  obtain ⟨l⟩ := s
  rfl

theorem data_append_0x (s : String) : ("0x" ++ s).data = '0' :: 'x' :: s.data := by
  obtain ⟨l⟩ := s
  rfl

theorem jsSliceList_eq_take_drop (l : List Char) (i j : Int)
    (h0 : 0 ≤ i) (hij : i ≤ j) (hj : j ≤ (l.length : Int)) :
    jsSliceList l i j = (l.take j.toNat).drop i.toNat := by
  rw [jsSliceList]
  have hi : ¬ (i < 0) := by omega
  have hjn : ¬ (j < 0) := by omega
  rw [if_neg hi, if_neg hjn, min_eq_left (le_trans hij hj), min_eq_left hj]

theorem jsSliceList_length (l : List Char) (i j : Int)
    (h0 : 0 ≤ i) (hij : i ≤ j) (hj : j ≤ (l.length : Int)) :
    ((jsSliceList l i j).length : Int) = j - i := by
  rw [jsSliceList_eq_take_drop l i j h0 hij hj]
  simp only [List.length_drop, List.length_take]
  have : min j.toNat l.length = j.toNat := by omega
  omega

theorem jsSliceList_subset (l : List Char) (i j : Int) :
    ∀ c ∈ jsSliceList l i j, c ∈ l := by
  intro c hc
  rw [jsSliceList] at hc
  exact List.take_subset _ _ (List.drop_subset _ _ hc)

theorem startsWith0x_append (s : String) : startsWith0x ("0x" ++ s) = true := by
  rw [startsWith0x, data_append_0x]
  rfl

theorem stripHex0x_append (s : String) : stripHex0x ("0x" ++ s) = s := by
  rw [stripHex0x, startsWith0x_append, if_pos rfl, jsSliceFrom, data_append_0x]
  rw [jsSliceList_eq_take_drop _ 2 _ (by omega) (by simp; omega) (by simp)]
  have h1 : ((('0' :: 'x' :: s.data).length : Int)).toNat = s.data.length + 2 := by
    simp only [List.length_cons]
    omega
  rw [h1]
  have h2 : List.take (s.data.length + 2) ('0' :: 'x' :: s.data) = '0' :: 'x' :: s.data := by
    apply List.take_of_length_le
    simp
  rw [h2]
  have h3 : ((2 : Int)).toNat = 2 := rfl
  rw [h3]
  simp [string_mk_data]

theorem jsBigIntOfHexTail_some (s : String)
    (hne : s.data ≠ []) (hhex : ∀ c ∈ s.data, (hexDigitVal c).isSome) :
    ∃ v, jsBigIntOfHexTail s = some v ∧ 0 ≤ v := by
  rw [jsBigIntOfHexTail]
  have : s.data.isEmpty = false := by
    cases h : s.data with
    | nil => exact absurd h hne
    | cons a l => rfl
  rw [this]
  simp only [Bool.false_eq_true, if_false]
  have := parseDigitsWith_isSome_of_valid hexDigitVal 16 s.data hhex 0
  rcases hp : parseDigitsWith hexDigitVal 16 0 s.data with _ | v
  · rw [hp] at this; simp at this
  · exact ⟨(v : Int), by simp, by positivity⟩

/-- A 64-character slice of an all-hex region parses to a nonnegative
value. -/
theorem jsSlice_hex_word (hex : String) (i : Int)
    (hhex : ∀ c ∈ hex.data, (hexDigitVal c).isSome)
    (h0 : 0 ≤ i) (hj : i + 64 ≤ (hex.data.length : Int)) :
    ∃ v, jsBigIntOfHexTail (jsSlice hex i (i + 64)) = some v ∧ 0 ≤ v := by
  apply jsBigIntOfHexTail_some
  · rw [jsSlice, string_data_mk]
    intro hnil
    have := jsSliceList_length hex.data i (i + 64) h0 (by omega) hj
    rw [hnil] at this
    simp at this
  · rw [jsSlice, string_data_mk]
    intro c hc
    exact hhex c (jsSliceList_subset hex.data i (i + 64) c hc)

theorem decodePointsAndWeek_none : decodePointsAndWeek none = .ok none := rfl

theorem natHexDigits_isEmpty_false (n : Nat) : (natHexDigits 64 n).isEmpty = false := by
  cases h : natHexDigits 64 n with
  | nil => exact absurd h (natHexDigits_ne_nil 64 n (by omega))
  | cons a l => rfl

theorem jsBigIntOfHexTail_mk_word (n : Nat) (hn : n < 16 ^ 64) :
    jsBigIntOfHexTail (String.mk (natHexDigits 64 n)) = some (n : Int) := by
  rw [jsBigIntOfHexTail, string_data_mk, natHexDigits_isEmpty_false]
  simp only [Bool.false_eq_true, if_false]
  rw [parseHex_natHexDigits 64 n 0 hn]
  simp

/-- C7: decoding the reference encoding of the payload — the 32-byte
big-endian word of `points` followed by the 32-byte big-endian word of
`week`, as a hex string — recovers exactly `(points, week)`, for every
pair of unsigned 256-bit integers. -/
theorem C7_decode_encode_roundtrip (p w : Nat) (hp : p < 2 ^ 256) (hw : w < 2 ^ 256) :
    decodePointsAndWeek (some (encodePointsWeekPayload p w))
      = .ok (some ⟨(p : Int), (w : Int)⟩) := by
  have hp16 : p < 16 ^ 64 := by
    calc p < 2 ^ 256 := hp
      _ = 16 ^ 64 := by norm_num
  have hw16 : w < 16 ^ 64 := by
    calc w < 2 ^ 256 := hw
      _ = 16 ^ 64 := by norm_num
  have hlenA : (natHexDigits 64 p).length = 64 := length_natHexDigits 64 p
  have hlenB : (natHexDigits 64 w).length = 64 := length_natHexDigits 64 w
  have hlen : (natHexDigits 64 p ++ natHexDigits 64 w).length = 128 := by
    rw [List.length_append, hlenA, hlenB]
  have hstrip : stripHex0x (encodePointsWeekPayload p w)
      = String.mk (natHexDigits 64 p ++ natHexDigits 64 w) := by
    rw [encodePointsWeekPayload]
    exact stripHex0x_append _
  have hs1 : jsSlice (String.mk (natHexDigits 64 p ++ natHexDigits 64 w)) 0 64
      = String.mk (natHexDigits 64 p) := by
    rw [jsSlice, string_data_mk,
      jsSliceList_eq_take_drop _ 0 64 (by omega) (by omega) (by rw [hlen]; omega)]
    have h1 : ((64 : Int)).toNat = 64 := rfl
    have h0 : ((0 : Int)).toNat = 0 := rfl
    rw [h1, h0, List.drop_zero, List.take_left' hlenA]
  have hs2 : jsSlice (String.mk (natHexDigits 64 p ++ natHexDigits 64 w)) 64 128
      = String.mk (natHexDigits 64 w) := by
    rw [jsSlice, string_data_mk,
      jsSliceList_eq_take_drop _ 64 128 (by omega) (by omega) (by rw [hlen]; omega)]
    have h1 : ((128 : Int)).toNat = 128 := rfl
    have h2 : ((64 : Int)).toNat = 64 := rfl
    rw [h1, h2, List.take_of_length_le (by rw [hlen]), List.drop_left' hlenA]
  rw [decodePointsAndWeek]
  simp only [hstrip, string_data_mk, hlen]
  rw [if_neg (by omega)]
  rw [hs1, hs2, jsBigIntOfHexTail_mk_word p hp16, jsBigIntOfHexTail_mk_word w hw16]

/-- Witness for C7 at `points = 1`, `week = 2`. -/
theorem C7_decode_encode_roundtrip_witness :
    (1 : Nat) < 2 ^ 256 ∧ (2 : Nat) < 2 ^ 256 ∧
      decodePointsAndWeek (some (encodePointsWeekPayload 1 2))
        = .ok (some ⟨(1 : Int), (2 : Int)⟩) :=
  ⟨by norm_num, by norm_num,
   C7_decode_encode_roundtrip 1 2 (by norm_num) (by norm_num)⟩

/-- `decodePointsAndWeek (some s)` in branch normal form. -/
theorem decodePointsAndWeek_eq (s : String) :
    decodePointsAndWeek (some s) =
      (if (stripHex0x s).data.length < 128 then .ok none
       else
        match jsBigIntOfHexTail (jsSlice (stripHex0x s) 0 64),
            jsBigIntOfHexTail (jsSlice (stripHex0x s) 64 128) with
        | some p, some w => .ok (some ⟨p, w⟩)
        | _, _ => .error ()) := rfl

/-- `extractBytesParamFromLogData` in branch normal form. -/
theorem extractBytesParamFromLogData_eq (data : String) :
    extractBytesParamFromLogData data =
      (if (stripHex0x data).data.length < 128 then .ok none
       else
        match jsBigIntOfHexTail (jsSlice (stripHex0x data) 0 64),
            jsBigIntOfHexTail (jsSlice (stripHex0x data) 64 128) with
        | none, _ => .error ()
        | some _, none => .error ()
        | some w0, some w1 =>
          if w0 ≠ 32 ∧ (if w0 = 32 then (64 : Int) else w1 * 2) + 64
              > ((stripHex0x data).data.length : Int) then .ok none
          else
            match jsBigIntOfHexTail (jsSlice (stripHex0x data)
                (if w0 = 32 then (64 : Int) else w1 * 2)
                ((if w0 = 32 then (64 : Int) else w1 * 2) + 64)) with
            | none => .error ()
            | some len =>
              if (if w0 = 32 then (128 : Int) else w1 * 2 + 64) + len * 2
                  > ((stripHex0x data).data.length : Int) then .ok none
              else .ok (some ("0x" ++ jsSlice (stripHex0x data)
                  (if w0 = 32 then (128 : Int) else w1 * 2 + 64)
                  ((if w0 = 32 then (128 : Int) else w1 * 2 + 64) + len * 2)))) := rfl

/-- On all-hexadecimal (after 0x-stripping) input, `decodePointsAndWeek`
never throws. -/
theorem decodePointsAndWeek_ok_of_hex (s : String)
    (hhex : ∀ c ∈ (stripHex0x s).data, (hexDigitVal c).isSome) :
    ∃ v, decodePointsAndWeek (some s) = .ok v := by
  rw [decodePointsAndWeek_eq]
  by_cases hlen : (stripHex0x s).data.length < 128
  · exact ⟨none, by rw [if_pos hlen]⟩
  · rw [if_neg hlen]
    obtain ⟨v0, hv0, -⟩ := jsSlice_hex_word (stripHex0x s) 0 hhex (by omega) (by push_cast; omega)
    obtain ⟨v1, hv1, -⟩ := jsSlice_hex_word (stripHex0x s) 64 hhex (by omega) (by push_cast; omega)
    norm_num at hv0 hv1
    rw [hv0, hv1]
    exact ⟨some ⟨v0, v1⟩, rfl⟩

/-- On all-hexadecimal (after 0x-stripping) input,
`extractBytesParamFromLogData` never throws, and when it produces a
payload that payload is again all-hexadecimal after stripping. -/
theorem extractBytesParam_ok_of_hex (data : String)
    (hhex : ∀ c ∈ (stripHex0x data).data, (hexDigitVal c).isSome) :
    (∃ payload, extractBytesParamFromLogData data = .ok (some payload) ∧
      ∀ c ∈ (stripHex0x payload).data, (hexDigitVal c).isSome) ∨
    extractBytesParamFromLogData data = .ok none := by
  rw [extractBytesParamFromLogData_eq]
  by_cases hlen : (stripHex0x data).data.length < 128
  · right; rw [if_pos hlen]
  · rw [if_neg hlen]
    obtain ⟨w0, hw0, -⟩ := jsSlice_hex_word (stripHex0x data) 0 hhex (by omega) (by push_cast; omega)
    obtain ⟨w1, hw1, hw1n⟩ := jsSlice_hex_word (stripHex0x data) 64 hhex (by omega) (by push_cast; omega)
    norm_num at hw0 hw1
    simp only [hw0, hw1]
    by_cases hguard : w0 ≠ 32 ∧ (if w0 = 32 then (64 : Int) else w1 * 2) + 64
        > ((stripHex0x data).data.length : Int)
    · right; rw [if_pos hguard]
    · rw [if_neg hguard]
      have hpos : 0 ≤ (if w0 = 32 then (64 : Int) else w1 * 2) := by
        split
        · omega
        · omega
      have hbound : (if w0 = 32 then (64 : Int) else w1 * 2) + 64
          ≤ ((stripHex0x data).data.length : Int) := by
        by_cases h32 : w0 = 32
        · rw [if_pos h32]; push_cast; omega
        · rcases not_and_or.mp hguard with h | h
          · exact absurd h32 (by simpa using h)
          · omega
      obtain ⟨lenv, hlenv, -⟩ :=
        jsSlice_hex_word (stripHex0x data) (if w0 = 32 then (64 : Int) else w1 * 2) hhex hpos hbound
      simp only [hlenv]
      by_cases hend : (if w0 = 32 then (128 : Int) else w1 * 2 + 64) + lenv * 2
          > ((stripHex0x data).data.length : Int)
      · right; rw [if_pos hend]
      · rw [if_neg hend]
        left
        refine ⟨_, rfl, ?_⟩
        rw [stripHex0x_append, jsSlice, string_data_mk]
        intro c hc
        exact hhex c (jsSliceList_subset _ _ _ c hc)

/-- C5 counterexample: a `data` string of 128 non-hexadecimal characters
passes the length guard, and the decode pipeline throws (models the
uncaught `BigInt` `SyntaxError`) instead of returning null. -/
theorem C5_counterexample :
    decodePipeline C5bad = .error () ∧ C5bad.data.length = 128 := by
  constructor
  · set_option maxRecDepth 20000 in decide
  · decide

/-- C5 amended: the pipeline returns null (never throws) on any too-short
input, and it never throws on any input whose 0x-stripped `data` consists
of hexadecimal characters; a non-hexadecimal character in a parsed region
makes the `BigInt` conversion throw (see the counterexample). -/
theorem C5_decode_graceful_amended (data : String) :
    ((stripHex0x data).data.length < 128 → decodePipeline data = .ok none) ∧
      ((∀ c ∈ (stripHex0x data).data, (hexDigitVal c).isSome) →
        ∃ v, decodePipeline data = .ok v) := by
  constructor
  · intro hlt
    have hx : extractBytesParamFromLogData data = .ok none := by
      rw [extractBytesParamFromLogData_eq, if_pos hlt]
    simp only [decodePipeline, hx]
    exact decodePointsAndWeek_none
  · intro hhex
    rcases extractBytesParam_ok_of_hex data hhex with ⟨payload, hx, hph⟩ | hx
    · obtain ⟨v, hv⟩ := decodePointsAndWeek_ok_of_hex payload hph
      exact ⟨v, by simp only [decodePipeline, hx, hv]⟩
    · exact ⟨none, by
        simp only [decodePipeline, hx]
        exact decodePointsAndWeek_none⟩

/-- Witness for C5 (amended) at the empty string: too short, decodes to
null without throwing. -/
theorem C5_decode_graceful_amended_witness :
    decodePipeline "" = .ok none ∧ ∃ v, decodePipeline "" = .ok v :=
  ⟨(C5_decode_graceful_amended "").1 (by decide),
   (C5_decode_graceful_amended "").2 (by decide)⟩

/-! ## Lemmas about the chunked scan loop -/

/-- The cursor returned by the scan loop never falls below a bound `L`
that lies strictly below the next block to scan and at or below the
current cursor. -/
theorem fetchLogsRangeGo_ge (toBlock hardMin deadline : Int) :
    ∀ (events : List FetchEvent) (fromB step : Int) (acc : List Log) (last L : Int)
      (r : FetchResult),
      0 ≤ step → L ≤ last → L + 1 ≤ fromB →
      fetchLogsRangeGo toBlock hardMin deadline events fromB step acc last = some (.ok r) →
      L ≤ r.lastScannedBlock := by
  intro events
  induction events with
  | nil =>
    intro fromB step acc last L r hstep hL hF hrun
    simp only [fetchLogsRangeGo] at hrun
    split at hrun
    · simp only [Option.some.injEq, Except.ok.injEq] at hrun
      rw [← hrun]
      exact hL
    · cases hrun
  | cons e rest ih =>
    intro fromB step acc last L r hstep hL hF hrun
    simp only [fetchLogsRangeGo] at hrun
    split at hrun
    · simp only [Option.some.injEq, Except.ok.injEq] at hrun
      rw [← hrun]
      exact hL
    · next hg =>
      split at hrun
      · simp only [Option.some.injEq, Except.ok.injEq] at hrun
        rw [← hrun]
        exact hL
      · rcases e with ⟨tB, o⟩
        cases o with
        | success logs =>
          simp only at hrun
          have hto : fromB ≤ min (fromB + step) toBlock := le_min (by omega) (by omega)
          exact ih _ step (acc ++ logs) _ L r hstep (by omega) (by omega) hrun
        | errFreeTier => cases hrun
        | errRangeTooLarge =>
          simp only at hrun
          have hs2 : (0 : Int) ≤ max (step / 2) hardMin :=
            le_trans (Int.ediv_nonneg hstep (by omega)) (le_max_left _ _)
          exact ih fromB _ acc last L r hs2 hL hF hrun
        | errRateLimit =>
          simp only at hrun
          exact ih fromB step acc last L r hstep hL hF hrun
        | errUnknown =>
          simp only at hrun
          have hs2 : (0 : Int) ≤ max (step / 2) hardMin :=
            le_trans (Int.ediv_nonneg hstep (by omega)) (le_max_left _ _)
          exact ih fromB _ acc last L r hs2 hL hF hrun

/-- If the scan result's cursor ended below the next block to scan, no
chunk succeeded: the logs and cursor are exactly the accumulator state. -/
theorem fetchLogsRangeGo_stuck (toBlock hardMin deadline : Int) :
    ∀ (events : List FetchEvent) (fromB step : Int) (acc : List Log) (last : Int)
      (r : FetchResult),
      0 ≤ step →
      fetchLogsRangeGo toBlock hardMin deadline events fromB step acc last = some (.ok r) →
      r.lastScannedBlock < fromB →
      r.logs = acc ∧ r.lastScannedBlock = last := by
  intro events
  induction events with
  | nil =>
    intro fromB step acc last r hstep hrun hlt
    simp only [fetchLogsRangeGo] at hrun
    split at hrun
    · simp only [Option.some.injEq, Except.ok.injEq] at hrun
      rw [← hrun]
      exact ⟨rfl, rfl⟩
    · cases hrun
  | cons e rest ih =>
    intro fromB step acc last r hstep hrun hlt
    simp only [fetchLogsRangeGo] at hrun
    split at hrun
    · simp only [Option.some.injEq, Except.ok.injEq] at hrun
      rw [← hrun]
      exact ⟨rfl, rfl⟩
    · next hg =>
      split at hrun
      · simp only [Option.some.injEq, Except.ok.injEq] at hrun
        rw [← hrun]
        exact ⟨rfl, rfl⟩
      · rcases e with ⟨tB, o⟩
        cases o with
        | success logs =>
          simp only at hrun
          exfalso
          have hto : fromB ≤ min (fromB + step) toBlock := le_min (by omega) (by omega)
          have := fetchLogsRangeGo_ge toBlock hardMin deadline rest _ step (acc ++ logs) _
            (min (fromB + step) toBlock) r hstep (le_refl _) (by omega) hrun
          omega
        | errFreeTier => cases hrun
        | errRangeTooLarge =>
          simp only at hrun
          have hs2 : (0 : Int) ≤ max (step / 2) hardMin :=
            le_trans (Int.ediv_nonneg hstep (by omega)) (le_max_left _ _)
          exact ih fromB _ acc last r hs2 hrun hlt
        | errRateLimit =>
          simp only at hrun
          exact ih fromB step acc last r hstep hrun hlt
        | errUnknown =>
          simp only at hrun
          have hs2 : (0 : Int) ≤ max (step / 2) hardMin :=
            le_trans (Int.ediv_nonneg hstep (by omega)) (le_max_left _ _)
          exact ih fromB _ acc last r hs2 hrun hlt

/-- One unfolding step of the scan loop on a nonempty event list. -/
theorem fetchLogsRangeGo_cons (toBlock hardMin deadline : Int) (e : FetchEvent)
    (rest : List FetchEvent) (fromB step : Int) (acc : List Log) (last : Int) :
    fetchLogsRangeGo toBlock hardMin deadline (e :: rest) fromB step acc last =
      (if fromB > toBlock then some (.ok ⟨acc, last, true⟩)
       else if deadline ≠ 0 ∧ e.time > deadline then some (.ok ⟨acc, last, false⟩)
       else
        match e.outcome with
        | .success logs => fetchLogsRangeGo toBlock hardMin deadline rest
            (min (fromB + step) toBlock + 1) step (acc ++ logs) (min (fromB + step) toBlock)
        | .errFreeTier => some (.error ())
        | .errRangeTooLarge => fetchLogsRangeGo toBlock hardMin deadline rest fromB
            (max (step / 2) hardMin) acc last
        | .errRateLimit => fetchLogsRangeGo toBlock hardMin deadline rest fromB step acc last
        | .errUnknown => fetchLogsRangeGo toBlock hardMin deadline rest fromB
            (max (step / 2) hardMin) acc last) := rfl

/-- A remaining range can always be scanned to completion by a suitable
event script (pre-deadline successful chunks with no logs). -/
theorem fetchLogsRangeGo_pad (toBlock hardMin deadline step : Int) (hstep : 0 ≤ step) :
    ∀ (n : Nat) (fromB : Int) (acc : List Log) (last : Int),
      fromB ≤ toBlock → (toBlock - fromB).toNat = n →
      ∃ events, fetchLogsRangeGo toBlock hardMin deadline events fromB step acc last
        = some (.ok ⟨acc, toBlock, true⟩) := by
  intro n
  induction n using Nat.strong_induction_on with
  | _ n ihn =>
    intro fromB acc last hle hn
    have h1 : fromB ≤ min (fromB + step) toBlock := le_min (by omega) hle
    by_cases hdone : min (fromB + step) toBlock + 1 > toBlock
    · have hto : min (fromB + step) toBlock = toBlock := by omega
      refine ⟨[⟨deadline, .success []⟩], ?_⟩
      rw [fetchLogsRangeGo_cons, if_neg (show ¬ (fromB > toBlock) by omega),
        if_neg (show ¬ (deadline ≠ 0 ∧ (⟨deadline, RpcOutcome.success []⟩ : FetchEvent).time > deadline) by simp)]
      show fetchLogsRangeGo toBlock hardMin deadline []
          (min (fromB + step) toBlock + 1) step (acc ++ []) (min (fromB + step) toBlock)
          = some (.ok ⟨acc, toBlock, true⟩)
      simp only [fetchLogsRangeGo]
      rw [if_pos hdone, List.append_nil, hto]
    · have hto : min (fromB + step) toBlock + 1 ≤ toBlock := by omega
      have hmeasure : (toBlock - (min (fromB + step) toBlock + 1)).toNat < n := by omega
      obtain ⟨events, hev⟩ := ihn _ hmeasure (min (fromB + step) toBlock + 1) acc
        (min (fromB + step) toBlock) hto rfl
      refine ⟨⟨deadline, .success []⟩ :: events, ?_⟩
      rw [fetchLogsRangeGo_cons, if_neg (show ¬ (fromB > toBlock) by omega),
        if_neg (show ¬ (deadline ≠ 0 ∧ (⟨deadline, RpcOutcome.success []⟩ : FetchEvent).time > deadline) by simp)]
      show fetchLogsRangeGo toBlock hardMin deadline events
          (min (fromB + step) toBlock + 1) step (acc ++ []) (min (fromB + step) toBlock)
          = some (.ok ⟨acc, toBlock, true⟩)
      rw [List.append_nil]
      exact hev

/-- An incomplete scan result replays as a complete scan of exactly
`[fromB, lastScannedBlock]` from the same starting state: the partial logs
are precisely the logs of the fully-scanned chunks, and the cursor is the
upper boundary of the last fully-scanned chunk. -/
theorem fetchLogsRangeGo_replay (hardMin deadline : Int) :
    ∀ (events : List FetchEvent) (toBlock fromB step : Int) (acc : List Log) (last : Int)
      (L : List Log) (B : Int),
      0 ≤ step →
      fetchLogsRangeGo toBlock hardMin deadline events fromB step acc last
        = some (.ok ⟨L, B, false⟩) →
      ∃ events2, fetchLogsRangeGo B hardMin deadline events2 fromB step acc last
        = some (.ok ⟨L, B, true⟩) := by
  intro events
  induction events with
  | nil =>
    intro toBlock fromB step acc last L B hstep hrun
    simp only [fetchLogsRangeGo] at hrun
    split at hrun
    · simp at hrun
    · cases hrun
  | cons e rest ih =>
    intro toBlock fromB step acc last L B hstep hrun
    rw [fetchLogsRangeGo_cons] at hrun
    split at hrun
    · simp at hrun
    · next hg =>
      split at hrun
      · next hdl =>
        simp only [Option.some.injEq, Except.ok.injEq, FetchResult.mk.injEq, and_true] at hrun
        obtain ⟨h1, h2⟩ := hrun
        subst h1
        subst h2
        by_cases hfb : fromB > last
        · refine ⟨[], ?_⟩
          simp only [fetchLogsRangeGo]
          rw [if_pos hfb]
        · obtain ⟨ev2, hev⟩ := fetchLogsRangeGo_pad last hardMin deadline step hstep
            (last - fromB).toNat fromB acc last (by omega) rfl
          exact ⟨ev2, hev⟩
      · next hdl =>
        rcases e with ⟨tB, o⟩
        cases o with
        | success logs =>
          try simp only at hrun
          by_cases hover : min (fromB + step) toBlock + 1 > toBlock
          · exfalso
            rcases rest with _ | ⟨e2, rest2⟩
            · simp only [fetchLogsRangeGo] at hrun
              rw [if_pos hover] at hrun
              simp at hrun
            · rw [fetchLogsRangeGo_cons, if_pos hover] at hrun
              simp at hrun
          · have hto : min (fromB + step) toBlock = fromB + step := by omega
            obtain ⟨ev2, hev⟩ := ih toBlock (min (fromB + step) toBlock + 1) step (acc ++ logs)
              (min (fromB + step) toBlock) L B hstep hrun
            have hBge : min (fromB + step) toBlock ≤ B :=
              fetchLogsRangeGo_ge toBlock hardMin deadline rest _ step _ _
                (min (fromB + step) toBlock) _ hstep (le_refl _) (by omega) hrun
            have hBge2 : fromB + step ≤ B := by rw [hto] at hBge; exact hBge
            refine ⟨⟨tB, .success logs⟩ :: ev2, ?_⟩
            rw [fetchLogsRangeGo_cons]
            rw [if_neg (show ¬ fromB > B by omega)]
            rw [if_neg hdl]
            show fetchLogsRangeGo B hardMin deadline ev2
                (min (fromB + step) B + 1) step (acc ++ logs) (min (fromB + step) B)
                = some (.ok ⟨L, B, true⟩)
            rw [min_eq_left hBge2]
            rw [hto] at hev
            exact hev
        | errFreeTier => simp at hrun
        | errRangeTooLarge =>
          try simp only at hrun
          have hs2 : (0 : Int) ≤ max (step / 2) hardMin :=
            le_trans (Int.ediv_nonneg hstep (by omega)) (le_max_left _ _)
          by_cases hfb : fromB > B
          · obtain ⟨hL, hB⟩ := fetchLogsRangeGo_stuck toBlock hardMin deadline rest fromB _
              acc last ⟨L, B, false⟩ hs2 hrun hfb
            have hL2 : L = acc := hL
            have hB2 : B = last := hB
            refine ⟨[], ?_⟩
            simp only [fetchLogsRangeGo]
            rw [if_pos hfb, hL2, hB2]
          · obtain ⟨ev2, hev⟩ := ih toBlock fromB _ acc last L B hs2 hrun
            refine ⟨⟨tB, .errRangeTooLarge⟩ :: ev2, ?_⟩
            rw [fetchLogsRangeGo_cons, if_neg (by omega), if_neg hdl]
            show fetchLogsRangeGo B hardMin deadline ev2 fromB (max (step / 2) hardMin) acc last
              = some (.ok ⟨L, B, true⟩)
            exact hev
        | errRateLimit =>
          try simp only at hrun
          by_cases hfb : fromB > B
          · obtain ⟨hL, hB⟩ := fetchLogsRangeGo_stuck toBlock hardMin deadline rest fromB _
              acc last ⟨L, B, false⟩ hstep hrun hfb
            have hL2 : L = acc := hL
            have hB2 : B = last := hB
            refine ⟨[], ?_⟩
            simp only [fetchLogsRangeGo]
            rw [if_pos hfb, hL2, hB2]
          · obtain ⟨ev2, hev⟩ := ih toBlock fromB step acc last L B hstep hrun
            refine ⟨⟨tB, .errRateLimit⟩ :: ev2, ?_⟩
            rw [fetchLogsRangeGo_cons, if_neg (by omega), if_neg hdl]
            show fetchLogsRangeGo B hardMin deadline ev2 fromB step acc last
              = some (.ok ⟨L, B, true⟩)
            exact hev
        | errUnknown =>
          try simp only at hrun
          have hs2 : (0 : Int) ≤ max (step / 2) hardMin :=
            le_trans (Int.ediv_nonneg hstep (by omega)) (le_max_left _ _)
          by_cases hfb : fromB > B
          · obtain ⟨hL, hB⟩ := fetchLogsRangeGo_stuck toBlock hardMin deadline rest fromB _
              acc last ⟨L, B, false⟩ hs2 hrun hfb
            have hL2 : L = acc := hL
            have hB2 : B = last := hB
            refine ⟨[], ?_⟩
            simp only [fetchLogsRangeGo]
            rw [if_pos hfb, hL2, hB2]
          · obtain ⟨ev2, hev⟩ := ih toBlock fromB _ acc last L B hs2 hrun
            refine ⟨⟨tB, .errUnknown⟩ :: ev2, ?_⟩
            rw [fetchLogsRangeGo_cons, if_neg (by omega), if_neg hdl]
            show fetchLogsRangeGo B hardMin deadline ev2 fromB (max (step / 2) hardMin) acc last
              = some (.ok ⟨L, B, true⟩)
            exact hev

/-- On a reusable state (truthy cursor, same week, current schema),
`incrementalUpdate` is the reuse path, consuming the log sources only on
`[L + 1, latest]`. -/
theorem LB.incrementalUpdate_reuse (s : LB.State) (env : LB.Env) (L : Int)
    (hlpb : s.lastProcessedBlock = some L) (hL0 : L ≠ 0)
    (hweek : s.currentWeekMs = weekStartUtcMs env.now)
    (hschema : LB.STATE_SCHEMA_VERSION ≤ s.schemaVersion) :
    LB.incrementalUpdate (some s) env
      = LB.reuseBody s env.now env.now2 env.latest env.deadline
          (env.rpc (L + 1) env.latest) (env.scan (L + 1) env.latest) L := by
  simp only [LB.incrementalUpdate, hlpb]
  rw [if_neg hL0]
  rw [if_neg (show ¬ s.currentWeekMs ≠ weekStartUtcMs env.now by simp [hweek])]
  rw [if_neg (show ¬ s.schemaVersion < LB.STATE_SCHEMA_VERSION by omega)]
  rw [← hlpb]
  rfl

/-- The cursor value returned by `fetchLogsRange` started at `L + 1` never
falls below `L`. -/
theorem fetchLogsRange_lastScanned_ge (events : List FetchEvent)
    (L latest deadline : Int) (r : FetchResult)
    (hrun : fetchLogsRange events (L + 1) latest 8000 900 deadline = some (.ok r)) :
    L ≤ r.lastScannedBlock := by
  rw [fetchLogsRange] at hrun
  by_cases hpos : L + 1 > 0
  · rw [if_pos hpos] at hrun
    exact fetchLogsRangeGo_ge latest 900 deadline events (L + 1) 8000 [] (L + 1 - 1) L r
      (by omega) (by omega) (by omega) hrun
  · rw [if_neg hpos] at hrun
    exact fetchLogsRangeGo_ge latest 900 deadline events (L + 1) 8000 [] 0 L r
      (by omega) (by omega) (by omega) hrun

/-- The reuse path never moves the cursor backwards. -/
theorem LB.reuseBody_mono (s : LB.State) (now now2 latest deadline : Int)
    (rpcEvents : List FetchEvent) (scanRes : Option (List Log)) (L : Int)
    (r : LB.State)
    (hlpb : s.lastProcessedBlock = some L)
    (hr : LB.reuseBody s now now2 latest deadline rpcEvents scanRes L = some (.ok r)) :
    ∃ L2, r.lastProcessedBlock = some L2 ∧ L ≤ L2 := by
  simp only [LB.reuseBody] at hr
  split at hr
  · simp only [Option.some.injEq, Except.ok.injEq] at hr
    refine ⟨L, ?_, le_refl L⟩
    rw [← hr]
    exact hlpb
  · next hgt =>
    rcases hf : fetchLogsRange rpcEvents (L + 1) latest 8000 900 deadline with _ | ex
    · simp only [hf] at hr
      exact Option.noConfusion hr
    · rcases ex with e | fr
      · rcases hs : scanRes with _ | logs
        · simp only [hf, hs] at hr
          simp at hr
        · simp only [hf, hs] at hr
          rcases hm : LB.mergeLogs (weekStartUtcMs now) (weekStartUtcMs now - ONE_WEEK_MS)
              s.weeks logs with e2 | weeks1
          · simp only [hm] at hr
            simp at hr
          · simp only [hm, Option.some.injEq, Except.ok.injEq] at hr
            refine ⟨latest, ?_, by omega⟩
            rw [← hr]
            simp
      · simp only [hf] at hr
        rcases hm : LB.mergeLogs (weekStartUtcMs now) (weekStartUtcMs now - ONE_WEEK_MS)
            s.weeks fr.logs with e2 | weeks1
        · simp only [hm] at hr
          simp at hr
        · simp only [hm, Option.some.injEq, Except.ok.injEq] at hr
          have hge : L ≤ fr.lastScannedBlock :=
            fetchLogsRange_lastScanned_ge rpcEvents L latest deadline fr hf
          refine ⟨if fr.complete then latest else fr.lastScannedBlock, ?_, ?_⟩
          · rw [← hr]
          · split
            · omega
            · exact hge

/-- C4: for every state the incremental update reuses (truthy
`lastProcessedBlock`, same current week, current schema version), the
returned cursor never decreases, and the update consults the log sources
only on the range `[lastProcessedBlock + 1, latest]` — its result depends
on the RPC and BaseScan oracles only at that range, so an already-scanned
and persisted range is never re-requested. -/
theorem C4_cursor_monotone (s : LB.State) (env : LB.Env) (L : Int)
    (hlpb : s.lastProcessedBlock = some L) (hL0 : L ≠ 0)
    (hweek : s.currentWeekMs = weekStartUtcMs env.now)
    (hschema : LB.STATE_SCHEMA_VERSION ≤ s.schemaVersion) :
    (∀ r, LB.incrementalUpdate (some s) env = some (.ok r) →
      ∃ L2, r.lastProcessedBlock = some L2 ∧ L ≤ L2) ∧
    (∀ env2 : LB.Env, env2.now = env.now → env2.now2 = env.now2 →
      env2.latest = env.latest → env2.deadline = env.deadline →
      env2.rpc (L + 1) env.latest = env.rpc (L + 1) env.latest →
      env2.scan (L + 1) env.latest = env.scan (L + 1) env.latest →
      LB.incrementalUpdate (some s) env2 = LB.incrementalUpdate (some s) env) := by
  have hre := LB.incrementalUpdate_reuse s env L hlpb hL0 hweek hschema
  constructor
  · intro r hr
    rw [hre] at hr
    exact LB.reuseBody_mono s env.now env.now2 env.latest env.deadline _ _ L r hlpb hr
  · intro env2 hnow hnow2 hlatest hdl hrpc hscan
    have hweek2 : s.currentWeekMs = weekStartUtcMs env2.now := by
      rw [hnow]
      exact hweek
    have hre2 := LB.incrementalUpdate_reuse s env2 L hlpb hL0 hweek2 hschema
    rw [hre, hre2, hnow, hnow2, hlatest, hdl, hrpc, hscan]

/-- Witness for C4 at a concrete caught-up state: cursor 100, latest 100;
the returned cursor is still 100. -/
theorem C4_cursor_monotone_witness :
    LB.incrementalUpdate (some C4state) C4env = some (.ok C4result) ∧
      (∃ L2, C4result.lastProcessedBlock = some L2 ∧ (100 : Int) ≤ L2) :=
  ⟨by decide,
   (C4_cursor_monotone C4state C4env 100 (by decide) (by decide) (by decide) (by decide)).1
     C4result (by decide)⟩

/-- C10 counterexample: a reusable state satisfying the claim's
precondition (current week, schema 4, cursor 500 at or beyond latest 400)
but with a persisted `lastWeekMs` of `0`: the no-op path rewrites
`lastWeekMs` to the freshly computed previous week start, which differs
from its old value — refuting the claim's "equal to their old values under
the precondition". -/
theorem C10_noop_counterexample :
    LB.incrementalUpdate (some C10state) C10env = some (.ok C10result) ∧
      C10result.lastWeekMs ≠ C10state.lastWeekMs ∧
      C10state.lastProcessedBlock = some 500 ∧ C10env.latest = 400 ∧
      C10state.currentWeekMs = weekStartUtcMs C10env.now ∧
      C10state.schemaVersion = LB.STATE_SCHEMA_VERSION :=
  ⟨by decide, by decide, by decide, by decide, by decide, by decide⟩

/-- C10 amended: with the cursor at or beyond the latest block, the reuse
path performs no log fetch (the result is an oracle-free expression) and
returns the state with only `updatedAt` rewritten, `currentWeekMs`
recomputed to its old value, and `lastWeekMs` recomputed to
`currentWeekMs - ONE_WEEK_MS` — which equals its old value exactly when
the persisted state satisfied the week-pair relation, in which case only
`updatedAt` changes. -/
theorem C10_noop_amended (s : LB.State) (env : LB.Env) (L : Int)
    (hlpb : s.lastProcessedBlock = some L) (hL0 : L ≠ 0)
    (hweek : s.currentWeekMs = weekStartUtcMs env.now)
    (hschema : LB.STATE_SCHEMA_VERSION ≤ s.schemaVersion)
    (hlatest : env.latest < L + 1) :
    LB.incrementalUpdate (some s) env
      = some (.ok { s with
                    currentWeekMs := weekStartUtcMs env.now,
                    lastWeekMs := weekStartUtcMs env.now - ONE_WEEK_MS,
                    updatedAt := env.now2 }) ∧
    (s.lastWeekMs = s.currentWeekMs - ONE_WEEK_MS →
      LB.incrementalUpdate (some s) env = some (.ok { s with updatedAt := env.now2 })) := by
  have hre := LB.incrementalUpdate_reuse s env L hlpb hL0 hweek hschema
  have h1 : LB.incrementalUpdate (some s) env
      = some (.ok { s with
                    currentWeekMs := weekStartUtcMs env.now,
                    lastWeekMs := weekStartUtcMs env.now - ONE_WEEK_MS,
                    updatedAt := env.now2 }) := by
    rw [hre]
    simp only [LB.reuseBody]
    rw [if_pos (show L + 1 > env.latest by omega)]
  refine ⟨h1, ?_⟩
  intro hinv
  rw [h1]
  simp only [Option.some.injEq, Except.ok.injEq, LB.State.mk.injEq, true_and, and_true]
  omega

/-- Witness for C10 (amended) at a concrete state satisfying the week-pair
relation: only `updatedAt` changes. -/
theorem C10_noop_amended_witness :
    LB.incrementalUpdate (some C4state) C4env = some (.ok { C4state with updatedAt := 5 }) ∧
      C4state.lastWeekMs = C4state.currentWeekMs - ONE_WEEK_MS :=
  ⟨(C10_noop_amended C4state C4env 100 (by decide) (by decide) (by decide) (by decide)
      (by decide)).2 (by decide),
   by decide⟩

/-- C1 counterexample: in `src/api/leaderboard.js` (schema version 4,
current), a state whose `currentWeekMs` is exactly one week behind `now`
triggers a cold backfill, not a rollover snapshot: the returned state's
previous-bucket totals are empty rather than equal to the old state's
nonempty current-bucket totals (and the state was rebuilt from the
time→block resolution oracle, visible in `backfillFromBlock = 50`). -/
theorem C1_rollover_counterexample :
    LB.incrementalUpdate (some C1state) C1env = some (.ok C1result) ∧
      C1state.currentWeekMs = weekStartUtcMs C1env.now - ONE_WEEK_MS ∧
      C1state.schemaVersion = LB.STATE_SCHEMA_VERSION ∧
      LB.getWeekMap C1state.weeks C1state.currentWeekMs = [("0xaa", 5)] ∧
      LB.getWeekMap C1result.weeks C1result.lastWeekMs = [] ∧
      LB.getWeekMap C1result.weeks C1result.lastWeekMs
        ≠ LB.getWeekMap C1state.weeks C1state.currentWeekMs ∧
      C1result.backfillFromBlock = some 50 :=
  ⟨by decide, by decide, by decide, by decide, by decide, by decide, by decide⟩

/-- C1 amended: the rollover snapshot exists in the `src/unnamed/part_001`
revision (which has no schema versioning).  There, for every state with a
truthy cursor whose calendar week is exactly one week behind `now` and
whose cursor is already at or beyond the chain head, `incrementalUpdate`
performs the rollover: the returned previous bucket holds exactly the old
current bucket's totals, the new current bucket is empty, the
processed-block cursor is carried forward unchanged, and the result is an
oracle-free expression — no block-boundary resolution and no log fetch is
performed. -/
theorem C1_rollover_amended (s : LB3.State) (env : LB3.Env) (L : Int)
    (hlpb : s.lastProcessedBlock = some L) (hL0 : L ≠ 0)
    (hweek : s.currentWeekMs = weekStartUtcMs env.now - ONE_WEEK_MS)
    (hlatest : env.latest < L + 1) :
    LB3.incrementalUpdate (some s) env
      = some (.ok ⟨weekStartUtcMs env.now, weekStartUtcMs env.now - ONE_WEEK_MS, some L,
          [⟨weekStartUtcMs env.now, []⟩,
           ⟨weekStartUtcMs env.now - ONE_WEEK_MS, LB.getWeekMap s.weeks s.currentWeekMs⟩],
          env.now2⟩) := by
  have hOW : ONE_WEEK_MS = 604800000 := rfl
  simp only [LB3.incrementalUpdate, hlpb]
  rw [if_neg hL0]
  rw [if_neg (show ¬ (s.currentWeekMs ≠ weekStartUtcMs env.now ∧
    s.currentWeekMs ≠ weekStartUtcMs env.now - ONE_WEEK_MS) by simp [hweek])]
  rw [if_pos (show s.currentWeekMs ≠ weekStartUtcMs env.now by omega)]
  rw [if_pos (show L + 1 > env.latest by omega)]

/-- Witness for C1 (amended): a concrete one-week-behind part_001 state
with cursor 900 at the chain head rolls over, moving its current totals
into the previous bucket. -/
theorem C1_rollover_amended_witness :
    C1rollState.currentWeekMs = weekStartUtcMs C1rollEnv.now - ONE_WEEK_MS ∧
      LB3.incrementalUpdate (some C1rollState) C1rollEnv
        = some (.ok ⟨WCUR, WPREV, some 900,
            [⟨WCUR, []⟩, ⟨WPREV, [("0xbb", 11)]⟩], 88⟩) :=
  ⟨by decide, by
    have h := C1_rollover_amended C1rollState C1rollEnv 900 (by decide) (by decide)
      (by decide) (by decide)
    exact h.trans (by decide)⟩

/-! ## Claim C2: independent per-bucket cursors (schema-5 revision) -/

theorem intToDecString_ne_empty (i : Int) : intToDecString i ≠ "" := by
  intro h
  have hd : (intToDecString i).data = [] := by rw [h]
  rw [intToDecString] at hd
  split at hd <;> rw [string_data_mk] at hd
  · exact List.noConfusion hd
  · exact natDecDigits_ne_nil _ hd

theorem parseOptBig_optBigToStr (o : Option Int) :
    LB.parseOptBig (LB.optBigToStr o) = .ok (if o = some 0 then none else o) := by
  cases o with
  | none => rfl
  | some v =>
    by_cases hv : v = 0
    · subst hv; rfl
    · simp only [LB.optBigToStr, if_neg hv, LB.parseOptBig,
        if_neg (intToDecString_ne_empty v), jsBigIntOfDec_intToDecString]
      simp [hv]

theorem parseEntriesJS_map_ok (entries : List (String × Int)) :
    ∀ m, ∃ m2, LB.parseEntriesJS m
      (entries.map (fun e => (e.1, intToDecString e.2))) = .ok m2 := by
  induction entries with
  | nil => intro m; exact ⟨m, rfl⟩
  | cons e rest ih =>
    intro m
    simp only [List.map_cons, LB.parseEntriesJS, jsBigIntOfDec_intToDecString]
    exact ih _

theorem collectWeeks_map_ok (l : List (Option LB.WeekBucket)) :
    ∃ ws, LB.collectWeeks (l.map (Option.map (fun w =>
      (⟨w.weekMs, w.map.map (fun e => (e.1, intToDecString e.2))⟩ : LB.SerializedWeek))))
      = .ok ws := by
  induction l with
  | nil => exact ⟨[], rfl⟩
  | cons o rest ih =>
    obtain ⟨ws, hws⟩ := ih
    cases o with
    | none =>
      refine ⟨ws, ?_⟩
      simpa only [List.map_cons, Option.map_none', LB.collectWeeks] using hws
    | some w =>
      simp only [List.map_cons, Option.map_some', LB.collectWeeks]
      by_cases hz : w.weekMs = 0
      · refine ⟨ws, ?_⟩
        simp [hz, hws]
      · obtain ⟨m2, hm2⟩ := parseEntriesJS_map_ok w.map []
        refine ⟨⟨w.weekMs, m2⟩ :: ws, ?_⟩
        simp [hz, hm2, hws]

/-- C2 counterexample: the claim's cited revision (`src/api/leaderboard.js`,
schema 4) has no per-bucket cursors.  Its serialized state carries the one
shared `lastProcessedBlock` and no completeness flag of any kind, and its
response metadata consists of exactly `schemaVersion`, the two user counts,
the single shared `lastProcessedBlock`, `updatedAt` and `busy` — no
per-bucket completeness flags and no per-bucket last-processed blocks.  The
two record literals spell out every field of the respective shapes. -/
theorem C2_counterexample :
    LB.serializeState C2state4
        = ⟨4, some "10", 7, WCUR, WPREV, some "123",
            [⟨WCUR, [("0xaa", "2")]⟩, ⟨WPREV, []⟩], 3⟩ ∧
      (LB.formatResponsePayload C2state4 false none).meta
        = ⟨4, 1, 0, some "123", 3, false⟩ := by
  have h10 : intToDecString 10 = "10" := by
    simp [intToDecString, natDecDigits, Nat.digitChar]
  have h123 : intToDecString 123 = "123" := by
    simp [intToDecString, natDecDigits, Nat.digitChar]
  have h2 : intToDecString 2 = "2" := by
    simp [intToDecString, natDecDigits, Nat.digitChar]
  constructor
  · rw [show LB.serializeState C2state4
        = ⟨4, some (intToDecString 10), 7, WCUR, WPREV, some (intToDecString 123),
            [⟨WCUR, [("0xaa", intToDecString 2)]⟩, ⟨WPREV, []⟩], 3⟩ from rfl,
      h10, h123, h2]
  · rw [show (LB.formatResponsePayload C2state4 false none).meta
        = ⟨4, 1, 0, some (intToDecString 123), 3, false⟩ from rfl, h123]

/-- C2 (amended): in the schema-5 revision `src/unnamed/part_002` every
aggregation state carries an independent progress cursor and completeness
flag per week bucket (the current week can be complete while the previous
one is not), the formatted response metadata exposes the per-bucket
completeness flags and per-bucket last-processed blocks, and serialization
followed by deserialization preserves all four per-bucket cursor fields —
whereas the schema-4 `src/api/leaderboard.js` keeps a single shared
cursor. -/
theorem C2_perBucketCursors (s : LB5.State) (includeNames : Bool)
    (fcMap : Option (List (String × String))) (storeDesc : String)
    (hc : s.curWeekProcessedBlock ≠ some 0)
    (hp : s.prevWeekProcessedBlock ≠ some 0) :
    ((LB5.formatResponsePayload s includeNames fcMap storeDesc).meta.completeCurWeek
          = s.completeCurWeek ∧
        (LB5.formatResponsePayload s includeNames fcMap storeDesc).meta.completePrevWeek
          = s.completePrevWeek ∧
        (LB5.formatResponsePayload s includeNames fcMap storeDesc).meta.curWeekProcessedBlock
          = LB.optBigToStr s.curWeekProcessedBlock ∧
        (LB5.formatResponsePayload s includeNames fcMap storeDesc).meta.prevWeekProcessedBlock
          = LB.optBigToStr s.prevWeekProcessedBlock) ∧
      ∃ s2, LB5.deserializeState (some (LB5.serializeState s)) = some s2 ∧
        s2.curWeekProcessedBlock = s.curWeekProcessedBlock ∧
        s2.prevWeekProcessedBlock = s.prevWeekProcessedBlock ∧
        s2.completeCurWeek = s.completeCurWeek ∧
        s2.completePrevWeek = s.completePrevWeek := by
  refine ⟨⟨rfl, rfl, rfl, rfl⟩, ?_⟩
  obtain ⟨ws, hws⟩ := collectWeeks_map_ok [s.weeks.get? 0, s.weeks.get? 1]
  simp only [List.map_cons, List.map_nil] at hws
  simp only [LB5.deserializeState, LB5.serializeState, List.get?_map, hws,
    parseOptBig_optBigToStr]
  refine ⟨_, rfl, ?_, ?_, rfl, rfl⟩
  · simp [hc]
  · simp [hp]

/-- Witness for C2: a concrete schema-5 state with `completeCurWeek = true`
and `completePrevWeek = false` and distinct per-bucket cursors. -/
theorem C2_perBucketCursors_witness :
    (C2state.curWeekProcessedBlock ≠ some 0 ∧ C2state.prevWeekProcessedBlock ≠ some 0) ∧
      (((LB5.formatResponsePayload C2state true none "kv").meta.completeCurWeek
            = C2state.completeCurWeek ∧
          (LB5.formatResponsePayload C2state true none "kv").meta.completePrevWeek
            = C2state.completePrevWeek ∧
          (LB5.formatResponsePayload C2state true none "kv").meta.curWeekProcessedBlock
            = LB.optBigToStr C2state.curWeekProcessedBlock ∧
          (LB5.formatResponsePayload C2state true none "kv").meta.prevWeekProcessedBlock
            = LB.optBigToStr C2state.prevWeekProcessedBlock) ∧
        ∃ s2, LB5.deserializeState (some (LB5.serializeState C2state)) = some s2 ∧
          s2.curWeekProcessedBlock = C2state.curWeekProcessedBlock ∧
          s2.prevWeekProcessedBlock = C2state.prevWeekProcessedBlock ∧
          s2.completeCurWeek = C2state.completeCurWeek ∧
          s2.completePrevWeek = C2state.completePrevWeek) :=
  ⟨⟨by decide, by decide⟩,
    C2_perBucketCursors C2state true none "kv" (by decide) (by decide)⟩

/-! ## Claim C9: the error envelope of the request handler -/

theorem catchResp_case (ops : List LB.Op) (resp : LB.HResp) (ops2 : List LB.Op)
    (h : some (LB.catchResp ops) = some (resp, ops2)) :
    resp.status = 200 ∧ (resp.body = LB.Body.errEnvelope →
      resp.body.okFlag = false ∧ LB.Op.releaseLock ∈ ops2) := by
  rw [Option.some_inj, LB.catchResp] at h
  injection h with hr ho
  subst hr
  subst ho
  exact ⟨rfl, fun _ => ⟨rfl, by simp⟩⟩

theorem payload_case (p : LB.Payload) (xs : List LB.Op) (resp : LB.HResp) (ops2 : List LB.Op)
    (h : some ((⟨200, LB.Body.payload p⟩ : LB.HResp), xs) = some (resp, ops2)) :
    resp.status = 200 ∧ (resp.body = LB.Body.errEnvelope →
      resp.body.okFlag = false ∧ LB.Op.releaseLock ∈ ops2) := by
  rw [Option.some_inj] at h
  injection h with hr ho
  subst hr
  subst ho
  exact ⟨rfl, fun habs => absurd habs (by simp)⟩

theorem handlerCore_envelope (henv : LB.HEnv) (dl : Int) (ops : List LB.Op)
    (resp : LB.HResp) (ops2 : List LB.Op)
    (h : LB.handlerCore henv dl ops = some (resp, ops2)) :
    resp.status = 200 ∧ (resp.body = LB.Body.errEnvelope →
      resp.body.okFlag = false ∧ LB.Op.releaseLock ∈ ops2) := by
  simp only [LB.handlerCore] at h
  split at h
  · exact catchResp_case ops resp ops2 h
  · split at h
    · exact Option.noConfusion h
    · exact catchResp_case ops resp ops2 h
    · split at h
      · exact catchResp_case ops resp ops2 h
      · split at h
        · exact catchResp_case ops resp ops2 h
        · split at h
          · exact catchResp_case (ops ++ [LB.Op.persistState]) resp ops2 h
          · exact payload_case _ _ resp ops2 h

/-- C9: whenever the request handler produces a response, the HTTP status
is 200; and whenever that response is the error envelope built by the
`catch` block, its `ok` discriminator is `false` and a lock release is
among the effects performed before responding. -/
theorem C9_error_envelope (henv : LB.HEnv) (resp : LB.HResp) (ops : List LB.Op)
    (h : LB.handler henv = some (resp, ops)) :
    resp.status = 200 ∧ (resp.body = LB.Body.errEnvelope →
      resp.body.okFlag = false ∧ LB.Op.releaseLock ∈ ops) := by
  simp only [LB.handler] at h
  split at h
  · exact catchResp_case [] resp ops h
  · exact payload_case _ _ resp ops h
  · split at h
    · split at h
      · exact catchResp_case [LB.Op.acquireLock] resp ops h
      · exact payload_case _ _ resp ops h
      · exact handlerCore_envelope henv _ [LB.Op.acquireLock] resp ops h
    · exact handlerCore_envelope henv _ [LB.Op.acquireLock] resp ops h

/-- Witness for C9: a forced-refresh invocation whose state read throws is
answered with a 200 `ok:false` envelope, and the effect trace releases the
lock it acquired. -/
theorem C9_error_envelope_witness :
    LB.handler C9henv
        = some (⟨200, LB.Body.errEnvelope⟩, [LB.Op.acquireLock, LB.Op.releaseLock]) ∧
      ((⟨200, LB.Body.errEnvelope⟩ : LB.HResp).status = 200 ∧
        ((⟨200, LB.Body.errEnvelope⟩ : LB.HResp).body = LB.Body.errEnvelope →
          (⟨200, LB.Body.errEnvelope⟩ : LB.HResp).body.okFlag = false ∧
            LB.Op.releaseLock ∈ [LB.Op.acquireLock, LB.Op.releaseLock])) :=
  ⟨by decide, C9_error_envelope C9henv ⟨200, LB.Body.errEnvelope⟩
    [LB.Op.acquireLock, LB.Op.releaseLock] (by decide)⟩
